import Mathlib

/-!
Verification development for the SumSum falling-block puzzle game
(source files generator.js, game.js and utils.js).

The JavaScript source is shallowly embedded: JS numbers holding game
values and scores become Int, timestamps and the floating-point score
multiplier become rationals, and every call of Math.random is fed from
an explicit stream of natural-number draws (type RSrc below).  Where
the source turns a unit-interval draw q into an integer floor(q * n),
the draw r here is taken modulo n, which realizes exactly the same set
of outcomes; where the source compares q against a decimal threshold
(0.4, 0.5, 0.6, 0.8), the draw is compared modulo the matching power of
ten.  State held on the game object and on the generator (the
planned-cube FIFOs) is flattened into one Game structure, and methods
become functions from Game (plus the random stream) to Game (plus the
remaining stream).

Purely presentational fields of a cube (its DOM id and wall-clock spawn
time) are omitted; every field read or written by the game logic is kept.
-/

namespace SumSum

/-- Stream of pseudo-random draws, one natural number per call of the JS
random source.  Functions consume entries in order; an exhausted stream
yields 0. -/
abbrev RSrc := List Nat


/-- Head draw of the stream, 0 once exhausted. -/
def rhead (rs : RSrc) : Nat := rs.headD 0


/-- Translation of randomInt from utils.js.  The source computes
Math.floor(q * (max - min + 1)) + min from a unit-interval draw q, reaching
each integer of the inclusive range; the draw modulo the range size realizes
exactly those outcomes. -/
def randomInt (lo hi : Int) (r : Nat) : Int :=
  lo + ((r % (hi - lo + 1).toNat : Nat) : Int)


/-- Translation of randomChoice from utils.js.  The source indexes the array
at Math.floor(q * length), reaching each position; the draw modulo the length
realizes exactly those positions.  The JS function yields undefined on an
empty array; that case is modelled as none. -/
def randomChoice (arr : List α) (r : Nat) : Option α :=
  arr[r % arr.length]?


/-- Concatenation of the lists produced for each element, in order: the shape
of a JS for-loop that recurses and accumulates results per iteration. -/
def listJoinMap (f : α → List β) : List α → List β
  | [] => []
  | x :: xs => f x ++ listJoinMap f xs


/-- Swap of two positions of a list; out-of-range indices leave the list
unchanged.  Translation of the destructuring swap inside shuffle of utils.js. -/
def listSwap (l : List α) (i j : Nat) : List α :=
  match l[i]?, l[j]? with
  | some x, some y => (l.set i y).set j x
  | some _, none => l
  | none, _ => l


/-- Core loop of the Fisher-Yates shuffle of utils.js: position i is swapped
with a random position at or below it, and i walks down to 1. -/
def shuffleGo : Nat → List α → RSrc → List α × RSrc
  | 0, l, rs => (l, rs)
  | i + 1, l, rs =>
    let j := rhead rs % (i + 2)
    shuffleGo i (listSwap l (i + 1) j) rs.tail


/-- Translation of shuffle from utils.js (Fisher-Yates over a copy). -/
def shuffle (l : List α) (rs : RSrc) : List α × RSrc :=
  shuffleGo (l.length - 1) l rs


/-- Translation of clamp from utils.js. -/
def clampInt (v lo hi : Int) : Int := max lo (min hi v)


/-- Translation of clamp from utils.js restricted to naturals, used for the
level lookup. -/
def clampNat (v lo hi : Nat) : Nat := max lo (min hi v)


namespace GAME_CONST

def NUM_COLUMNS : Nat := 4
def MAX_COLUMN_HEIGHT : Nat := 8
def DANGER_HEIGHT : Nat := 6
def MIN_CUBES_FOR_SUM : Nat := 2
def MAX_CUBES_FOR_SUM : Nat := 5
def MIN_TARGET : Int := 5
def QUEUE_SIZE : Nat := 2
def TARGETS_AHEAD : Nat := 2
def POINTS_PER_LEVEL : Int := 500
def COMBO_TIMEOUT : ℚ := 5000

end GAME_CONST


/-- Per-level configuration record from utils.js (the display label is
dropped; it is never read by the game logic). -/
structure LevelCfg where
  maxNumber : Nat
  maxTarget : Int
  spawnInterval : ℚ
deriving Repr, DecidableEq


/-- The LEVEL_CONFIG table of utils.js.  The JS array has a null placeholder
at index 0; here the list holds exactly the ten real configurations, so JS
index k corresponds to list position k - 1. -/
def LEVEL_CONFIG : List LevelCfg :=
  [⟨6, 15, 3000⟩, ⟨6, 15, 2800⟩, ⟨6, 16, 2600⟩,
   ⟨9, 25, 2400⟩, ⟨9, 25, 2200⟩, ⟨9, 27, 2000⟩,
   ⟨12, 30, 1800⟩, ⟨12, 32, 1600⟩, ⟨12, 35, 1500⟩, ⟨12, 35, 1400⟩]


/-- Translation of getLevelConfig from utils.js: clamp the level into 1..10
and look the configuration up (with the index shift described above). -/
def getLevelConfig (level : Nat) : LevelCfg :=
  LEVEL_CONFIG.getD (clampNat level 1 LEVEL_CONFIG.length - 1) ⟨6, 15, 3000⟩


/-- Sum of the values addressed by a list of indices; an out-of-range index
contributes 0 (the search below only records in-range indices). -/
def idxSum (vals : List Int) (c : List Nat) : Int :=
  (c.map (fun i => vals.getD i 0)).sum


/-- Faithful translation of the inner recursive search of findAllPossibleSums
in generator.js.  It returns the list of recorded pairs of current sum and
used index combination, in push order; the for-loop over candidate indices
becomes a concatenation over the index range.  The extra fuel argument makes
the recursion structural; the source recursion stops once count exceeds
maxCubes, so any fuel of at least maxCubes + 1 - count reproduces it exactly
(the lemmas below are stated under that bound and the top-level entry point
passes maxCubes + 1). -/
def searchFAPS (vals : List Int) (maxCubes fuel startIdx : Nat)
    (currentSum : Int) (count : Nat) (used : List Nat) : List (Int × List Nat) :=
  if maxCubes < count then []
  else
    (if GAME_CONST.MIN_CUBES_FOR_SUM ≤ count then [(currentSum, used)] else []) ++
    match fuel with
    | 0 => []
    | fuel' + 1 =>
      listJoinMap
        (fun i => searchFAPS vals maxCubes fuel' (i + 1) (currentSum + vals.getD i 0)
          (count + 1) (used ++ [i]))
        (List.range' startIdx (vals.length - startIdx))


/-- Entry list of findAllPossibleSums of generator.js: the search started at
index 0 with empty running state and enough fuel for the whole recursion. -/
def fapsEntries (cubeValues : List Int) (maxCubes : Nat) : List (Int × List Nat) :=
  searchFAPS cubeValues maxCubes (maxCubes + 1) 0 0 0 []


/-- Reading of the result Map of findAllPossibleSums at a given sum: the
combinations recorded for that sum in insertion order (a JS Map preserves
per-key push order). -/
def findAllPossibleSums (cubeValues : List Int) (maxCubes : Nat) (s : Int) :
    List (List Nat) :=
  ((fapsEntries cubeValues maxCubes).filter (fun e => e.1 == s)).map (fun e => e.2)


/-- Test of the has method of the result Map of findAllPossibleSums. -/
def fapsHas (cubeValues : List Int) (maxCubes : Nat) (t : Int) : Bool :=
  (fapsEntries cubeValues maxCubes).any (fun e => e.1 == t)


/-- Index lists that are strictly increasing, bounded below by start and
above by n. -/
def IncBounded (start n : Nat) : List Nat → Prop
  | [] => True
  | i :: rest => start ≤ i ∧ i < n ∧ IncBounded (i + 1) n rest


/-- A cube as created by createCube of utils.js.  The wall-clock spawn time
and the DOM id are purely presentational and omitted; every field read or
written by the game rules is present. -/
structure Cube where
  value : Int
  column : Nat
  row : Int
  selected : Bool := false
  falling : Bool := false
  fallProgress : ℚ := 0
  fallFrom : Int := -1
  fallTo : Int := -1
  removing : Bool := false
  removeProgress : ℚ := 0
  bounceProgress : ℚ := 0
deriving Repr, DecidableEq


/-- Translation of createCube of utils.js (all lifecycle fields at their
initial values, the row not yet assigned). -/
def createCube (value : Int) (column : Nat) : Cube :=
  { value := value, column := column, row := -1 }


/-- Combined state of the SumSumGame object of game.js and of the planned-cube
FIFOs held by its GameGenerator.  Timers, DOM handles and the UI and storage
adapters are external and omitted. -/
structure Game where
  columns : List (List Cube)
  queues : List (List Int)
  targets : List Int
  score : Int
  level : Nat
  comboCount : Nat
  lastMatchTime : ℚ
  targetsCleared : Nat
  isPlaying : Bool
  plannedCubes : List (List Int)
deriving Repr, DecidableEq


/-- Events emitted to the external adapters, kept only as far as the claims
need them (the game-over transition and cube spawns). -/
inductive GEvent where
  | gameOverEv : GEvent
  | spawnedEv : Nat → GEvent
deriving Repr, DecidableEq


/-- The state produced by reset of game.js together with the generator reset
(all planned FIFOs cleared). -/
def reset (_g : Game) : Game :=
  { columns := [[], [], [], []], queues := [[], [], [], []], targets := [],
    score := 0, level := 1, comboCount := 0, lastMatchTime := 0,
    targetsCleared := 0, isPlaying := false,
    plannedCubes := [[], [], [], []] }


/-- A convenient concrete game state: the state right after reset. -/
def emptyGame : Game :=
  { columns := [[], [], [], []], queues := [[], [], [], []], targets := [],
    score := 0, level := 1, comboCount := 0, lastMatchTime := 0,
    targetsCleared := 0, isPlaying := false,
    plannedCubes := [[], [], [], []] }


/-- Translation of the method getAllCubeValues of generator.js: the values of
all cubes on the board that are not mid-removal, in column then row order. -/
def _getAllCubeValues (g : Game) : List Int :=
  listJoinMap (fun col => (col.filter (fun c => !c.removing)).map (fun c => c.value))
    g.columns


/-- Translation of the method getUpcomingCubeValues of generator.js: all
queued values followed by all planned values. -/
def _getUpcomingCubeValues (g : Game) : List Int :=
  listJoinMap id g.queues ++ listJoinMap id g.plannedCubes


/-- Reading of the number distribution of generator.js at one value: how often
that value occurs on the board (mid-removal cubes included, as in the source). -/
def countValue (g : Game) (v : Int) : Nat :=
  (listJoinMap (fun col => col.map (fun c => c.value)) g.columns).count v


/-- Translation of getSelectedSum of game.js. -/
def getSelectedSum (g : Game) : Int :=
  (listJoinMap (fun col => (col.filter (fun c => c.selected && !c.removing)).map
    (fun c => c.value)) g.columns).sum


/-- Translation of getSelectedCubes of game.js. -/
def getSelectedCubes (g : Game) : List Cube :=
  listJoinMap (fun col => col.filter (fun c => c.selected && !c.removing)) g.columns


/-- Translation of the inner search of the method findCombinations of
generator.js: combinations of exactly count values (stored by value, not by
index) summing to the target, pruning any value above the remainder.  The
source stops when its running depth reaches count; the structural fuel
argument here is count minus that depth, so fuel 0 is the base case. -/
def searchFC (values : List Int) : Nat → Nat → Int → List Int → List (List Int)
  | 0, _, remaining, used => if remaining = 0 then [used] else []
  | fuel + 1, startIdx, remaining, used =>
    listJoinMap
      (fun i =>
        if values.getD i 0 ≤ remaining then
          searchFC values fuel (i + 1) (remaining - values.getD i 0)
            (used ++ [values.getD i 0])
        else [])
      (List.range' startIdx (values.length - startIdx))


/-- Translation of the method findCombinations of generator.js. -/
def _findCombinations (values : List Int) (target : Int) (count : Nat) :
    List (List Int) :=
  searchFC values count 0 target []


/-- Translation of the method findHelpfulValues of generator.js: the single
values between 1 and maxValue whose addition lets some combination of at most
4 cubes reach the target.  The source collects them in an insertion-ordered
Set over an ascending loop, hence the ascending list here. -/
def _findHelpfulValues (existingValues : List Int) (target : Int)
    (maxValue : Nat) : List Int :=
  (List.range' 1 maxValue).filterMap (fun (x : Nat) =>
    if fapsHas (existingValues ++ [((x : Nat) : Int)]) 4 target then
      some ((x : Int)) else none)


/-- Loop of the method weightedRandom of generator.js: subtract weights from
the scaled draw until it drops to or below zero, returning that index, or the
last index (minus one for an empty list, as in the source) when the loop runs
out. -/
def weightedGo : List Int → Int → Nat → Int
  | [], _, idx => (idx : Int) - 1
  | w :: ws, r, idx =>
    if r - w ≤ 0 then (idx : Int) else weightedGo ws (r - w) (idx + 1)


/-- Translation of the method weightedRandom of generator.js.  The source
scales a unit draw by the total weight; the draw here is taken modulo the
total (clipped to at least 1 to stay total), which subtends the same loop
exits for the positive integer weights the callers build. -/
def _weightedRandom (weights : List Int) (r : Nat) : Int :=
  weightedGo weights ((r : Int) % (max 1 weights.sum)) 0


/-- Translation of the method generateBalancedCube of generator.js: weight
each face value by max 1 (10 - 2 frequency) and sample by weight. -/
def _generateBalancedCube (g : Game) (cfg : LevelCfg) (rs : RSrc) : Int × RSrc :=
  let weights := (List.range' 1 cfg.maxNumber).map
    (fun (i : Nat) => max 1 (10 - 2 * ((countValue g (i : Int) : Int))))
  (_weightedRandom weights (rhead rs) + 1, rs.tail)


/-- Tail of the method generateHelpfulCube of generator.js after the needed
value branch: if a 2 or 3 cube solution already exists, a plain random value;
otherwise a uniformly chosen helpful value when one exists, else a plain
random value.  The randomChoice default 0 is never reached for a well-formed
draw because that branch requires a non-empty candidate list. -/
def helpfulCubeRest (g : Game) (cfg : LevelCfg) (t : Int) (rs : RSrc) : Int × RSrc :=
  let allCubes := _getAllCubeValues g
  if (_findCombinations allCubes t 2).length ≠ 0 ∨
      (_findCombinations allCubes t 3).length ≠ 0 then
    (randomInt 1 (cfg.maxNumber : Int) (rhead rs), rs.tail)
  else
    let bestValues := _findHelpfulValues allCubes t cfg.maxNumber
    if bestValues.length ≠ 0 then
      ((randomChoice bestValues (rhead rs)).getD 0, rs.tail)
    else
      (randomInt 1 (cfg.maxNumber : Int) (rhead rs), rs.tail)


/-- Translation of the method generateHelpfulCube of generator.js.  A missing
current target, or the falsy target 0, yields a plain random value; otherwise
the needed remainder is returned with probability 0.6 when usable, falling
through to helpfulCubeRest. -/
def _generateHelpfulCube (g : Game) (cfg : LevelCfg) (rs : RSrc) : Int × RSrc :=
  match g.targets.head? with
  | none => (randomInt 1 (cfg.maxNumber : Int) (rhead rs), rs.tail)
  | some t =>
    if t = 0 then (randomInt 1 (cfg.maxNumber : Int) (rhead rs), rs.tail)
    else
      let needed := t - getSelectedSum g
      if 0 < needed ∧ needed ≤ (cfg.maxNumber : Int) then
        if rhead rs % 10 < 6 then (needed, rs.tail)
        else helpfulCubeRest g cfg t rs.tail
      else helpfulCubeRest g cfg t rs


/-- Translation of the method generateAdaptiveCube of generator.js: rescue
generation at or above the danger height, balanced generation below it. -/
def _generateAdaptiveCube (g : Game) (colIndex : Nat) (cfg : LevelCfg)
    (rs : RSrc) : Int × RSrc :=
  if GAME_CONST.DANGER_HEIGHT ≤ (g.columns.getD colIndex []).length then
    _generateHelpfulCube g cfg rs
  else
    _generateBalancedCube g cfg rs


/-- Translation of generateNextCubeValue of generator.js: a non-empty planned
FIFO for the column is popped and returned before any adaptive generation. -/
def generateNextCubeValue (g : Game) (colIndex : Nat) (rs : RSrc) :
    Int × Game × RSrc :=
  let cfg := getLevelConfig g.level
  match g.plannedCubes.getD colIndex [] with
  | v :: rest =>
    (v, { g with plannedCubes := g.plannedCubes.set colIndex rest }, rs)
  | [] =>
    let (v, rs') := _generateAdaptiveCube g colIndex cfg rs
    (v, g, rs')


/-- Translation of chooseColumn of generator.js: every non-full column enters
a candidate pool max 1 (8 - height) times and one candidate is drawn; with no
candidates a uniformly random column index is drawn instead. -/
def chooseColumn (g : Game) (rs : RSrc) : Nat × RSrc :=
  let heights := g.columns.map (fun col => col.length)
  let candidates := listJoinMap
    (fun i =>
      if GAME_CONST.MAX_COLUMN_HEIGHT ≤ heights.getD i 0 then []
      else List.replicate (max 1 (GAME_CONST.MAX_COLUMN_HEIGHT - heights.getD i 0)) i)
    (List.range g.columns.length)
  if candidates.length = 0 then
    ((randomInt 0 ((GAME_CONST.NUM_COLUMNS : Int) - 1) (rhead rs)).toNat, rs.tail)
  else
    ((randomChoice candidates (rhead rs)).getD 0, rs.tail)


/-- Keys of a JS Map in first-insertion order, as produced by pushing the
given keys in sequence. -/
def firstKeys [DecidableEq α] (l : List α) : List α :=
  l.foldl (fun acc k => if k ∈ acc then acc else acc ++ [k]) []


/-- The valid sums the target generator builds: each sum of the search result
in the inclusive target range, paired with its recorded combinations, in Map
iteration order. -/
def validSumsOf (availableCubes : List Int) (cfg : LevelCfg) :
    List (Int × List (List Nat)) :=
  (firstKeys ((fapsEntries availableCubes GAME_CONST.MAX_CUBES_FOR_SUM).map
      (fun e => e.1))).filterMap
    (fun s =>
      if GAME_CONST.MIN_TARGET ≤ s ∧ s ≤ cfg.maxTarget then
        some (s, findAllPossibleSums availableCubes GAME_CONST.MAX_CUBES_FOR_SUM s)
      else none)


/-- The pool of valid sums having some recorded combination of exactly 2
cubes, as filtered in the method chooseSumByDifficulty of generator.js. -/
def by2Pool (validSums : List (Int × List (List Nat))) :
    List (Int × List (List Nat)) :=
  validSums.filter (fun e => e.2.any (fun c => c.length == 2))


/-- The pool of valid sums having some recorded combination of exactly 3
cubes. -/
def by3Pool (validSums : List (Int × List (List Nat))) :
    List (Int × List (List Nat)) :=
  validSums.filter (fun e => e.2.any (fun c => c.length == 3))


/-- The pool of valid sums having some recorded combination of 4 or more
cubes. -/
def by4Pool (validSums : List (Int × List (List Nat))) :
    List (Int × List (List Nat)) :=
  validSums.filter (fun e => e.2.any (fun c => decide (4 ≤ c.length)))


/-- Pool selection cascade of the method chooseSumByDifficulty of
generator.js: the branches fall through in order, ending at the full valid
set.  The roll is the unit draw in tenths, so the source conditions roll
below 0.4 and roll below 0.8 become roll below 4 and roll below 8. -/
def chosenPool (validSums : List (Int × List (List Nat))) (roll : Nat) :
    List (Int × List (List Nat)) :=
  if roll < 4 ∧ (by2Pool validSums).length ≠ 0 then by2Pool validSums
  else if roll < 8 ∧ (by3Pool validSums).length ≠ 0 then by3Pool validSums
  else if (by4Pool validSums).length ≠ 0 then by4Pool validSums
  else validSums


/-- Translation of the method chooseSumByDifficulty of generator.js.  The
first draw is the difficulty roll, the second picks from the selected pool;
the default 0 stands for the undefined JS result on an empty pool, which the
caller excludes. -/
def _chooseSumByDifficulty (validSums : List (Int × List (List Nat)))
    (rs : RSrc) : Int × RSrc :=
  let pool := chosenPool validSums (rhead rs % 10)
  (((randomChoice pool (rhead rs.tail)).map (fun e => e.1)).getD 0, rs.tail.tail)


/-- The number of values the fallback target generator draws: 2 or 3 with
even odds (the source compares the unit draw with 0.5; an even draw stands
for the low half). -/
def fallbackNumCubes (rs : RSrc) : Nat :=
  if rhead rs % 2 = 0 then 2 else 3


/-- Draws of n face values via randomInt 1 maxNumber, consuming one stream
entry each. -/
def drawValues (maxNumber : Nat) : Nat → RSrc → List Int × RSrc
  | 0, rs => ([], rs)
  | n + 1, rs =>
    let v := randomInt 1 (maxNumber : Int) (rhead rs)
    let (vs, rs') := drawValues maxNumber n rs.tail
    (v :: vs, rs')


/-- The values the fallback target generator draws from the given stream. -/
def fallbackValues (cfg : LevelCfg) (rs : RSrc) : List Int :=
  (drawValues cfg.maxNumber (fallbackNumCubes rs) rs.tail).1


/-- Remaining stream after the fallback value draws. -/
def fallbackValuesRest (cfg : LevelCfg) (rs : RSrc) : RSrc :=
  (drawValues cfg.maxNumber (fallbackNumCubes rs) rs.tail).2


/-- The shuffled column order the fallback target generator uses. -/
def fallbackCols (cfg : LevelCfg) (rs : RSrc) : List Nat :=
  (shuffle [0, 1, 2, 3] (fallbackValuesRest cfg rs)).1


/-- Push one value onto the planned FIFO of one column. -/
def plantOne (g : Game) (colIdx : Nat) (v : Int) : Game :=
  { g with plannedCubes :=
      g.plannedCubes.set colIdx ((g.plannedCubes.getD colIdx []) ++ [v]) }


/-- The forEach loop of the method generateFallbackTarget of generator.js:
value number i goes to the shuffled column at position i mod 4. -/
def plantFrom (g : Game) (cols : List Nat) : Nat → List Int → Game
  | _, [] => g
  | i, v :: vs => plantFrom (plantOne g (cols.getD (i % 4) 0) v) cols (i + 1) vs


/-- Translation of the method generateFallbackTarget of generator.js: draw 2
or 3 values, plant them on shuffled columns, and return the clamped sum. -/
def _generateFallbackTarget (cfg : LevelCfg) (g : Game) (rs : RSrc) :
    Int × Game × RSrc :=
  let values := fallbackValues cfg rs
  let shuffledCols := fallbackCols cfg rs
  let g' := plantFrom g shuffledCols 0 values
  (clampInt values.sum GAME_CONST.MIN_TARGET cfg.maxTarget, g',
    (shuffle [0, 1, 2, 3] (fallbackValuesRest cfg rs)).2)


/-- Translation of generateTarget of generator.js: search the board plus
upcoming values for sums, restrict them to the valid range, choose by
difficulty when possible, and otherwise fall back to planting cubes. -/
def generateTarget (g : Game) (rs : RSrc) : Int × Game × RSrc :=
  let cfg := getLevelConfig g.level
  let availableCubes := _getAllCubeValues g ++ _getUpcomingCubeValues g
  if (fapsEntries availableCubes GAME_CONST.MAX_CUBES_FOR_SUM).length ≠ 0 then
    let validSums := validSumsOf availableCubes cfg
    if validSums.length ≠ 0 then
      let (t, rs') := _chooseSumByDifficulty validSums rs
      (t, g, rs')
    else _generateFallbackTarget cfg g rs
  else _generateFallbackTarget cfg g rs


/-- Translation of checkGameOver of game.js: true when every column is at
maximal height. -/
def _checkGameOver (g : Game) : Bool :=
  g.columns.all (fun col => GAME_CONST.MAX_COLUMN_HEIGHT ≤ col.length)


/-- Translation of gameOver of game.js restricted to the core state: the
playing flag drops and a game-over event goes out to the adapters. -/
def gameOver (g : Game) : Game × List GEvent :=
  ({ g with isPlaying := false }, [GEvent.gameOverEv])


/-- The queue refill loop of game.js (while the queue is shorter than
QUEUE_SIZE, push a generated value).  Each pass grows the queue by one, so
QUEUE_SIZE passes of fuel reproduce the while loop. -/
def refillQueue : Nat → Game → Nat → RSrc → Game × RSrc
  | 0, g, _, rs => (g, rs)
  | fuel + 1, g, col, rs =>
    if (g.queues.getD col []).length < GAME_CONST.QUEUE_SIZE then
      let (v, g', rs') := generateNextCubeValue g col rs
      refillQueue fuel
        { g' with queues := g'.queues.set col ((g'.queues.getD col []) ++ [v]) }
        col rs'
    else (g, rs)


/-- Translation of spawnCubeInColumn of game.js: take the next value from the
queue (or generate one), refill the queue, and append the new falling cube at
the top of the column. -/
def _spawnCubeInColumn (g : Game) (col : Nat) (rs : RSrc) :
    Game × RSrc × List GEvent :=
  let (value, g₁, rs₁) :=
    match g.queues.getD col [] with
    | v :: rest => (v, { g with queues := g.queues.set col rest }, rs)
    | [] => generateNextCubeValue g col rs
  let (g₂, rs₂) := refillQueue GAME_CONST.QUEUE_SIZE g₁ col rs₁
  let row := (g₂.columns.getD col []).length
  let cube : Cube :=
    { value := value, column := col, row := (row : Int), falling := true,
      fallFrom := (GAME_CONST.MAX_COLUMN_HEIGHT : Int) + 2, fallTo := (row : Int),
      fallProgress := 0, bounceProgress := 1 }
  ({ g₂ with columns := g₂.columns.set col ((g₂.columns.getD col []) ++ [cube]) },
    rs₂, [GEvent.spawnedEv col])


/-- Translation of spawnNextCube of game.js: choose a column; when it is
full, either declare game over (if every column is full) or spawn into the
first column with room; otherwise spawn into the chosen column. -/
def _spawnNextCube (g : Game) (rs : RSrc) : Game × RSrc × List GEvent :=
  let (col, rs₁) := chooseColumn g rs
  if GAME_CONST.MAX_COLUMN_HEIGHT ≤ (g.columns.getD col []).length then
    if _checkGameOver g then
      let (g', evs) := gameOver g
      (g', rs₁, evs)
    else
      match (List.range GAME_CONST.NUM_COLUMNS).find?
          (fun i => (g.columns.getD i []).length < GAME_CONST.MAX_COLUMN_HEIGHT) with
      | some i => _spawnCubeInColumn g i rs₁
      | none =>
        let (g', evs) := gameOver g
        (g', rs₁, evs)
  else
    _spawnCubeInColumn g col rs₁


/-- Translation of the loop body of settleColumn of game.js on one column:
each cube whose stored row differs from its position starts falling from the
old row to the position and its row is re-indexed. -/
def settleList (col : List Cube) : List Cube :=
  col.enum.map (fun p =>
    let i := p.1
    let c := p.2
    if c.row ≠ (i : Int) then
      { c with falling := true, fallFrom := c.row, fallTo := (i : Int), fallProgress := 0, row := (i : Int) }
    else c)


/-- Translation of settleColumn of game.js. -/
def _settleColumn (g : Game) (colIdx : Nat) : Game :=
  { g with columns := g.columns.set colIdx (settleList (g.columns.getD colIdx [])) }


/-- Translation of checkColumnClears of game.js: count the columns, among
those containing at least one matched cube, whose length equals the number of
matched cubes they contain. -/
def _checkColumnClears (columns : List (List Cube)) (cubes : List Cube) : Nat :=
  ((firstKeys (cubes.map (fun c => c.column))).filter
    (fun col => cubes.countP (fun cu => cu.column == col) == (columns.getD col []).length)).length


/-- Translation of checkLevelUp of game.js: one level gained when the score
reaches 500 times the level, below the level cap (the JS array has a null
slot, so its length bound of 11 minus 1 equals the list length 10 here). -/
def _checkLevelUp (g : Game) : Game :=
  if GAME_CONST.POINTS_PER_LEVEL * (g.level : Int) ≤ g.score ∧
      g.level < LEVEL_CONFIG.length then
    { g with level := g.level + 1 }
  else g


/-- Translation of onTargetMatch of game.js, with the sound, vibration,
floating-text and achievement calls (external adapters) dropped.  The matched
cubes are passed as the list of currently selected, non-removing cubes, and
marking them removed is expressed by mapping that defining predicate over the
columns, which is what the aliased mutation of the source does. -/
def _onTargetMatch (g : Game) (cubes : List Cube) (now : ℚ) (rs : RSrc) :
    Game × RSrc :=
  let t := g.targets.headD 0
  let comboCount' :=
    if now - g.lastMatchTime < GAME_CONST.COMBO_TIMEOUT ∧ 0 < g.lastMatchTime then
      g.comboCount + 1
    else 1
  let m1 : ℚ := 1
  let m2 := if 2 ≤ comboCount' then m1 * (1 + ((comboCount' : ℚ) - 1) * (1 / 2)) else m1
  let m3 := if 25 ≤ t then m2 * 3 else if 20 ≤ t then m2 * 2 else m2
  let clearedColumns := _checkColumnClears g.columns cubes
  let m4 := if 0 < clearedColumns then m3 * 2 else m3
  let points := Int.floor ((t : ℚ) * (cubes.length : ℚ) * m4)
  let markCube := fun (cu : Cube) =>
    if cu.selected && !cu.removing then
      { cu with selected := false, removing := true, removeProgress := (0 : ℚ) }
    else cu
  let g₁ := { g with comboCount := comboCount', lastMatchTime := now, score := g.score + points }
  let markedColumns := g₁.columns.map (fun col => col.map markCube)
  let g₂ := { g₁ with columns := markedColumns }
  let g₃ := { g₂ with targets := g₂.targets.tail }
  let (newTarget, g₄, rs₁) := generateTarget g₃ rs
  let g₅ := { g₄ with targets := g₄.targets ++ [newTarget], targetsCleared := g₄.targetsCleared + 1 }
  (_checkLevelUp g₅, rs₁)


/-- Translation of checkTarget of game.js: a match fires when the current
target exists, is truthy, and the selected non-removing cubes sum to it with
at least MIN_CUBES_FOR_SUM cubes. -/
def _checkTarget (g : Game) (now : ℚ) (rs : RSrc) : Game × RSrc :=
  match g.targets.head? with
  | none => (g, rs)
  | some t =>
    if t = 0 then (g, rs)
    else
      if getSelectedSum g = t ∧
          GAME_CONST.MIN_CUBES_FOR_SUM ≤ (getSelectedCubes g).length then
        _onTargetMatch g (getSelectedCubes g) now rs
      else (g, rs)


/-- Translation of toggleCubeSelection of game.js: a missing cube or one that
is mid-removal is ignored; otherwise the selected flag flips and the match
condition is re-checked. -/
def toggleCubeSelection (g : Game) (colIdx rowIdx : Nat) (now : ℚ) (rs : RSrc) :
    Game × RSrc :=
  match (g.columns.getD colIdx [])[rowIdx]? with
  | none => (g, rs)
  | some cube =>
    if cube.removing then (g, rs)
    else
      let toggled := { cube with selected := !cube.selected }
      let newCol := (g.columns.getD colIdx []).set rowIdx toggled
      let g₁ := { g with columns := g.columns.set colIdx newCol }
      _checkTarget g₁ now rs


/-- Default cube for positional reads. -/
def defCube : Cube := createCube 0 0


/-- Concrete state for the C8 witness: a single cube resting at a stale row
index after a removal below it. -/
def settleWitnessGame : Game :=
  { emptyGame with columns :=
      [[{ value := 3, column := 0, row := 1, falling := false }], [], [], []] }


/-- A column filled to the maximal height, for the C7 witness. -/
def fullColumn (c : Nat) : List Cube :=
  (List.range 8).map (fun r => { value := 1, column := c, row := (r : Int) })


/-- A board with all four columns full, for the C7 witness. -/
def fullBoardGame : Game :=
  { emptyGame with columns := [fullColumn 0, fullColumn 1, fullColumn 2, fullColumn 3] }


/-- Concrete state for the C5 counterexample: a single cube that is mid-fall
(falling set, removing clear), with a current target it cannot match alone. -/
def fallingCubeGame : Game :=
  { emptyGame with
      columns := [[{ value := 3, column := 0, row := 0, falling := true, fallFrom := 1, fallTo := 0 }], [], [], []],
      targets := [10], isPlaying := true }


/-- Concrete state with a mid-removal cube, for the C5 witness. -/
def removingCubeGame : Game :=
  { emptyGame with
      columns := [[{ value := 3, column := 0, row := 0, removing := true }], [], [], []],
      targets := [10], isPlaying := true }


/-- Concrete planned state for the C6 witness. -/
def plannedGame : Game := { emptyGame with plannedCubes := [[], [4], [], [6]] }


/-- Concrete valid-sum list for the C4 counterexample: its only sum is
reachable both by a 2-cube and by a 3-cube combination, and a second list
whose sums need 3 and 4 cubes shows the fall-through on an empty preferred
pool. -/
def mixedValidSums : List (Int × List (List Nat)) := [(5, [[0, 1], [2, 3, 4]])]


/-- Valid sums with only a 3-cube sum and a 4-cube sum, for the C4
counterexample fall-through conjunct. -/
def no2ValidSums : List (Int × List (List Nat)) :=
  [(9, [[0, 1, 2]]), (14, [[0, 1, 2, 3]])]


/-- Concrete match state for the C3 instances: target 20, two selected cubes
of values 12 and 8 plus one unselected cube in the same column (so no column
is cleared), and no previous match. -/
def match20Game : Game :=
  { emptyGame with
      columns := [[{ value := 12, column := 0, row := 0, selected := true },
                   { value := 8, column := 0, row := 1, selected := true },
                   { value := 5, column := 0, row := 2 }], [], [], []],
      targets := [20], isPlaying := true }


/-- Concrete match state for the 450-point C3 instance: target 25, three
selected cubes summing to 25 next to an unselected cube (no column clear),
and a running combo of 2 with the previous match 1000 ms ago, so this match
makes the combo count 3. -/
def match25Game : Game :=
  { emptyGame with
      columns := [[{ value := 8, column := 0, row := 0, selected := true },
                   { value := 8, column := 0, row := 1, selected := true },
                   { value := 9, column := 0, row := 2, selected := true },
                   { value := 5, column := 0, row := 3 }], [], [], []],
      targets := [25], comboCount := 2, lastMatchTime := 1000, isPlaying := true }


theorem randomInt_bounds {lo hi : Int} (r : Nat) (hlohi : lo ≤ hi) :
    lo ≤ randomInt lo hi r ∧ randomInt lo hi r ≤ hi := by
  unfold randomInt
  have hn : 0 < (hi - lo + 1).toNat := by omega
  have := Nat.mod_lt r hn
  omega


theorem randomChoice_mem {arr : List α} (r : Nat)
    (hne : arr ≠ []) : ∃ v, randomChoice arr r = some v ∧ v ∈ arr := by
  have hlen : 0 < arr.length := List.length_pos.mpr hne
  have hlt : r % arr.length < arr.length := Nat.mod_lt r hlen
  refine ⟨arr.get ⟨r % arr.length, hlt⟩, ?_, ?_⟩
  · simp [randomChoice, List.getElem?_eq_getElem hlt, List.get_eq_getElem]
  · exact List.get_mem arr _ hlt


theorem mem_listJoinMap {f : α → List β} {l : List α} {b : β} :
    b ∈ listJoinMap f l ↔ ∃ a ∈ l, b ∈ f a := by
  induction l with
  | nil => simp [listJoinMap]
  | cons x xs ih => simp [listJoinMap, ih, or_and_right, exists_or]


theorem nodup_listJoinMap {f : α → List β} {l : List α}
    (h1 : ∀ a ∈ l, (f a).Nodup)
    (h2 : ∀ a ∈ l, ∀ a' ∈ l, a ≠ a' → ∀ b ∈ f a, b ∉ f a')
    (hl : l.Nodup) : (listJoinMap f l).Nodup := by
  induction l with
  | nil => simp [listJoinMap]
  | cons x xs ih =>
    rw [listJoinMap, List.nodup_append]
    rcases List.nodup_cons.mp hl with ⟨hx, hxs⟩
    refine ⟨h1 x (by simp), ?_, ?_⟩
    · exact ih (fun a ha => h1 a (by simp [ha]))
        (fun a ha a' ha' hne => h2 a (by simp [ha]) a' (by simp [ha']) hne) hxs
    · intro b hb hb'
      rcases mem_listJoinMap.mp hb' with ⟨a, ha, hba⟩
      have hne : x ≠ a := fun h => hx (h ▸ ha)
      exact h2 x (by simp) a (by simp [ha]) hne b hb hba


theorem count_set_add [DecidableEq α] {l : List α} {i : Nat} (h : i < l.length)
    (b e : α) :
    (l.set i b).count e + (if l[i] = e then 1 else 0)
      = l.count e + (if b = e then 1 else 0) := by
  induction l generalizing i with
  | nil => simp at h
  | cons x xs ih =>
    cases i with
    | zero =>
      simp only [List.set_cons_zero, List.getElem_cons_zero, List.count_cons]
      have hb : (if (b == e) = true then 1 else 0) = (if b = e then 1 else 0) := by
        by_cases hbe : b = e <;> simp [hbe]
      have hx : (if (x == e) = true then 1 else 0) = (if x = e then 1 else 0) := by
        by_cases hxe : x = e <;> simp [hxe]
      omega
    | succ n =>
      have hn : n < xs.length := by simpa using h
      have := ih hn
      simp only [List.set_cons_succ, List.getElem_cons_succ, List.count_cons]
      omega


theorem listSwap_perm [DecidableEq α] (l : List α) (i j : Nat) :
    (listSwap l i j).Perm l := by
  unfold listSwap
  split
  case _ x y hx hy =>
    have hi : i < l.length := by
      by_contra hc
      rw [List.getElem?_eq_none (by omega)] at hx
      cases hx
    have hj : j < l.length := by
      by_contra hc
      rw [List.getElem?_eq_none (by omega)] at hy
      cases hy
    have hxv : l[i] = x := by
      rw [List.getElem?_eq_getElem hi] at hx
      exact Option.some.inj hx
    have hyv : l[j] = y := by
      rw [List.getElem?_eq_getElem hj] at hy
      exact Option.some.inj hy
    apply List.perm_iff_count.mpr
    intro e
    have hj' : j < (l.set i y).length := by simpa using hj
    have h1 := count_set_add hj' x e
    have h2 := count_set_add hi y e
    by_cases hij : i = j
    · subst hij
      have hset : (l.set i y)[i] = y := List.getElem_set_self hj'
      rw [hset] at h1
      have hxy : x = y := by rw [← hxv, ← hyv]
      subst hxy
      rw [hxv] at h2
      omega
    · have hset : (l.set i y)[j] = l[j] := List.getElem_set_ne (by omega) hj'
      rw [hset, hyv] at h1
      rw [hxv] at h2
      omega
  case _ => exact List.Perm.refl l
  case _ => exact List.Perm.refl l


theorem shuffleGo_perm [DecidableEq α] :
    ∀ (i : Nat) (l : List α) (rs : RSrc), (shuffleGo i l rs).1.Perm l := by
  intro i
  induction i with
  | zero => intro l rs; exact List.Perm.refl l
  | succ n ih =>
    intro l rs
    exact (ih _ _).trans (listSwap_perm l (n + 1) _)


theorem shuffle_perm [DecidableEq α] (l : List α) (rs : RSrc) :
    (shuffle l rs).1.Perm l :=
  shuffleGo_perm (l.length - 1) l rs


theorem getLevelConfig_maxNumber (level : Nat) :
    6 ≤ (getLevelConfig level).maxNumber := by
  unfold getLevelConfig clampNat
  have h : max 1 (min LEVEL_CONFIG.length level) - 1 < 10 := by
    have : LEVEL_CONFIG.length = 10 := by decide
    omega
  interval_cases h' : (max 1 (min LEVEL_CONFIG.length level) - 1) <;> decide


theorem idxSum_nil (vals : List Int) : idxSum vals [] = 0 := rfl


theorem idxSum_cons (vals : List Int) (i : Nat) (rest : List Nat) :
    idxSum vals (i :: rest) = vals.getD i 0 + idxSum vals rest := by
  simp [idxSum]


theorem incBounded_iff (n : Nat) :
    ∀ (l : List Nat) (start : Nat),
    IncBounded start n l ↔
      (List.Pairwise (· < ·) l ∧ ∀ i ∈ l, start ≤ i ∧ i < n) := by
  intro l
  induction l with
  | nil => intro start; simp [IncBounded]
  | cons i rest ih =>
    intro start
    rw [IncBounded, ih (i + 1)]
    simp only [List.pairwise_cons, List.forall_mem_cons]
    constructor
    · rintro ⟨h1, h2, h3, h4⟩
      exact ⟨⟨fun j hj => by have := (h4 j hj).1; omega, h3⟩,
        ⟨h1, h2⟩, fun j hj => ⟨by have := (h4 j hj).1; omega, (h4 j hj).2⟩⟩
    · rintro ⟨⟨h1, h2⟩, ⟨h3, h4⟩, h5⟩
      exact ⟨h3, h4, h2, fun j hj => ⟨by have := h1 j hj; omega, (h5 j hj).2⟩⟩


theorem searchFAPS_mem (vals : List Int) (maxCubes : Nat) :
    ∀ (fuel startIdx : Nat) (currentSum : Int) (count : Nat) (used : List Nat),
    maxCubes + 1 - count ≤ fuel →
    ∀ (s : Int) (c : List Nat),
    ((s, c) ∈ searchFAPS vals maxCubes fuel startIdx currentSum count used ↔
      ∃ ext : List Nat, c = used ++ ext ∧ s = currentSum + idxSum vals ext ∧
        IncBounded startIdx vals.length ext ∧
        GAME_CONST.MIN_CUBES_FOR_SUM ≤ count + ext.length ∧
        count + ext.length ≤ maxCubes) := by
  intro fuel
  induction fuel with
  | zero =>
    intro startIdx currentSum count used hfuel s c
    have hlt : maxCubes < count := by omega
    rw [searchFAPS, if_pos hlt]
    simp only [List.not_mem_nil, false_iff, not_exists]
    rintro ext ⟨-, -, -, -, hle⟩
    omega
  | succ fuel ih =>
    intro startIdx currentSum count used hfuel s c
    rw [searchFAPS]
    by_cases hlt : maxCubes < count
    · rw [if_pos hlt]
      simp only [List.not_mem_nil, false_iff, not_exists]
      rintro ext ⟨-, -, -, -, hle⟩
      omega
    · rw [if_neg hlt]
      rw [List.mem_append, mem_listJoinMap]
      constructor
      · rintro (hbase | ⟨i, hi, hrec⟩)
        · by_cases h2 : GAME_CONST.MIN_CUBES_FOR_SUM ≤ count
          · rw [if_pos h2] at hbase
            simp only [List.mem_singleton, Prod.mk.injEq] at hbase
            refine ⟨[], by simp [hbase.2.symm], by simp [idxSum_nil, hbase.1.symm],
              trivial, by simpa using h2, by simpa using Nat.not_lt.mp hlt⟩
          · rw [if_neg h2] at hbase
            simp at hbase
        · rcases List.mem_range'.mp hi with ⟨k, hk, hik⟩
          have hstart : startIdx ≤ i := by omega
          have hilen : i < vals.length := by omega
          rcases (ih (i + 1) (currentSum + vals.getD i 0) (count + 1) (used ++ [i])
              (by omega) s c).mp hrec with ⟨ext', hc, hs, hinc, hmin, hmax⟩
          refine ⟨i :: ext', ?_, ?_, ⟨hstart, hilen, hinc⟩, ?_, ?_⟩
          · rw [hc]; simp
          · rw [hs, idxSum_cons]; ring
          · simp only [List.length_cons]; omega
          · simp only [List.length_cons]; omega
      · rintro ⟨ext, hc, hs, hinc, hmin, hmax⟩
        cases ext with
        | nil =>
          left
          have h2 : GAME_CONST.MIN_CUBES_FOR_SUM ≤ count := by simpa using hmin
          rw [if_pos h2]
          simp only [List.mem_singleton, Prod.mk.injEq]
          exact ⟨by rw [hs, idxSum_nil, add_zero], by rw [hc, List.append_nil]⟩
        | cons i ext' =>
          right
          rcases hinc with ⟨hstart, hilen, hinc'⟩
          refine ⟨i, List.mem_range'.mpr ⟨i - startIdx, by omega, by omega⟩, ?_⟩
          apply (ih (i + 1) (currentSum + vals.getD i 0) (count + 1) (used ++ [i])
            (by omega) s c).mpr
          refine ⟨ext', by rw [hc]; simp, ?_, hinc', ?_, ?_⟩
          · rw [hs, idxSum_cons]; ring
          · simp only [List.length_cons] at hmin; omega
          · simp only [List.length_cons] at hmax; omega


theorem searchFAPS_mem' (vals : List Int) (maxCubes fuel startIdx : Nat)
    (currentSum : Int) (count : Nat) (used : List Nat)
    (hfuel : maxCubes + 1 - count ≤ fuel) (s : Int) (c : List Nat) :
    ((s, c) ∈ searchFAPS vals maxCubes fuel startIdx currentSum count used ↔
      ∃ ext : List Nat, c = used ++ ext ∧ s = currentSum + idxSum vals ext ∧
        IncBounded startIdx vals.length ext ∧
        GAME_CONST.MIN_CUBES_FOR_SUM ≤ count + ext.length ∧
        count + ext.length ≤ maxCubes) :=
  searchFAPS_mem vals maxCubes fuel startIdx currentSum count used hfuel s c


theorem searchFAPS_nodup (vals : List Int) (maxCubes : Nat) :
    ∀ (fuel startIdx : Nat) (currentSum : Int) (count : Nat) (used : List Nat),
    maxCubes + 1 - count ≤ fuel →
    (searchFAPS vals maxCubes fuel startIdx currentSum count used).Nodup := by
  intro fuel
  induction fuel with
  | zero =>
    intro startIdx currentSum count used hfuel
    have hlt : maxCubes < count := by omega
    rw [searchFAPS, if_pos hlt]
    exact List.nodup_nil
  | succ fuel ih =>
    intro startIdx currentSum count used hfuel
    rw [searchFAPS]
    by_cases hlt : maxCubes < count
    · rw [if_pos hlt]; exact List.nodup_nil
    · rw [if_neg hlt]
      rw [List.nodup_append]
      refine ⟨?_, ?_, ?_⟩
      · by_cases h2 : GAME_CONST.MIN_CUBES_FOR_SUM ≤ count
        · rw [if_pos h2]; simp
        · rw [if_neg h2]; simp
      · apply nodup_listJoinMap
        · intro i hi
          exact ih (i + 1) (currentSum + vals.getD i 0) (count + 1) (used ++ [i])
            (by omega)
        · intro i hi i' hi' hne b hb hb'
          rcases (searchFAPS_mem' vals maxCubes fuel (i + 1)
            (currentSum + vals.getD i 0) (count + 1) (used ++ [i]) (by omega)
            b.1 b.2).mp (by simpa using hb) with ⟨ext, hc, -, -, -, -⟩
          rcases (searchFAPS_mem' vals maxCubes fuel (i' + 1)
            (currentSum + vals.getD i' 0) (count + 1) (used ++ [i']) (by omega)
            b.1 b.2).mp (by simpa using hb') with ⟨ext', hc', -, -, -, -⟩
          rw [hc'] at hc
          have : [i'] ++ ext' = [i] ++ ext := by
            rw [List.append_assoc, List.append_assoc] at hc
            exact List.append_cancel_left hc
          simp only [List.cons_append, List.nil_append, List.cons.injEq] at this
          exact hne (this.1.symm)
        · exact List.nodup_range' startIdx (vals.length - startIdx)
      · intro b hb hb'
        by_cases h2 : GAME_CONST.MIN_CUBES_FOR_SUM ≤ count
        · rw [if_pos h2] at hb
          simp only [List.mem_singleton] at hb
          rcases mem_listJoinMap.mp hb' with ⟨i, hi, hbi⟩
          rcases (searchFAPS_mem' vals maxCubes fuel (i + 1)
            (currentSum + vals.getD i 0) (count + 1) (used ++ [i]) (by omega)
            b.1 b.2).mp (by simpa using hbi) with ⟨ext, hc, -, -, -, -⟩
          rw [hb] at hc
          have := congrArg List.length hc
          simp only [List.length_append, List.length_cons] at this
          omega
        · rw [if_neg h2] at hb
          simp at hb


/-- C2 support: the characterization of membership in the entry list of
findAllPossibleSums with the default running state. -/
theorem fapsEntries_mem (vals : List Int) (maxCubes : Nat) (s : Int) (c : List Nat) :
    ((s, c) ∈ fapsEntries vals maxCubes ↔
      (List.Pairwise (· < ·) c ∧ (∀ i ∈ c, i < vals.length) ∧
        GAME_CONST.MIN_CUBES_FOR_SUM ≤ c.length ∧ c.length ≤ maxCubes ∧
        idxSum vals c = s)) := by
  rw [fapsEntries, searchFAPS_mem' vals maxCubes (maxCubes + 1) 0 0 0 [] (by omega)]
  constructor
  · rintro ⟨ext, hc, hs, hinc, hmin, hmax⟩
    have hext : c = ext := by simpa using hc
    subst hext
    rcases (incBounded_iff vals.length c 0).mp hinc with ⟨hpw, hbnd⟩
    refine ⟨hpw, fun i hi => (hbnd i hi).2, by simpa using hmin, by simpa using hmax,
      by rw [hs]; ring⟩
  · rintro ⟨hpw, hbnd, hmin, hmax, hsum⟩
    refine ⟨c, by simp, by rw [← hsum]; ring, ?_, by simpa using hmin, by simpa using hmax⟩
    exact (incBounded_iff vals.length c 0).mpr ⟨hpw, fun i hi => ⟨Nat.zero_le i, hbnd i hi⟩⟩


theorem fapsEntries_nodup (vals : List Int) (maxCubes : Nat) :
    (fapsEntries vals maxCubes).Nodup :=
  searchFAPS_nodup vals maxCubes (maxCubes + 1) 0 0 0 [] (by omega)


theorem count_one_of_nodup_mem [BEq α] [LawfulBEq α] {l : List α} {a : α}
    (h : l.Nodup) (ha : a ∈ l) : l.count a = 1 := by
  induction l with
  | nil => cases ha
  | cons x xs ih =>
    rcases List.nodup_cons.mp h with ⟨hx, hxs⟩
    rcases List.mem_cons.mp ha with rfl | hmem
    · rw [List.count_cons, List.count_eq_zero_of_not_mem hx]
      simp
    · rw [List.count_cons, ih hxs hmem]
      have hne : a ≠ x := fun he => hx (he ▸ hmem)
      simp [hne, Ne.symm hne]


theorem count_zero_of_not_mem [BEq α] [LawfulBEq α] {l : List α} {a : α}
    (ha : a ∉ l) : l.count a = 0 :=
  List.count_eq_zero_of_not_mem ha


/-- C2: for every value list and every sum, the combinations that
findAllPossibleSums (minimum combination size 2, maximum 5) lists under that
sum are exactly the strictly increasing index combinations of size 2..5 into
the value list whose addressed values add up to the sum; each such combination
appears exactly once and nothing else appears. -/
theorem C2_findAllPossibleSums_exact (vals : List Int) (s : Int) (c : List Nat) :
    (findAllPossibleSums vals GAME_CONST.MAX_CUBES_FOR_SUM s).count c
      = if List.Pairwise (· < ·) c ∧ (∀ i ∈ c, i < vals.length) ∧
           GAME_CONST.MIN_CUBES_FOR_SUM ≤ c.length ∧
           c.length ≤ GAME_CONST.MAX_CUBES_FOR_SUM ∧ idxSum vals c = s
        then 1 else 0 := by
  have hnd : (fapsEntries vals GAME_CONST.MAX_CUBES_FOR_SUM).Nodup :=
    fapsEntries_nodup _ _
  have hfil : ((fapsEntries vals GAME_CONST.MAX_CUBES_FOR_SUM).filter
      (fun e => e.1 == s)).Nodup := hnd.filter _
  have hmapnd : (findAllPossibleSums vals GAME_CONST.MAX_CUBES_FOR_SUM s).Nodup := by
    rw [findAllPossibleSums]
    apply List.Nodup.map_on _ hfil
    intro x hx y hy hxy
    have hx1 : x.1 = s := by simpa using List.of_mem_filter hx
    have hy1 : y.1 = s := by simpa using List.of_mem_filter hy
    exact Prod.ext (hx1.trans hy1.symm) hxy
  have hmem : c ∈ findAllPossibleSums vals GAME_CONST.MAX_CUBES_FOR_SUM s ↔
      (s, c) ∈ fapsEntries vals GAME_CONST.MAX_CUBES_FOR_SUM := by
    rw [findAllPossibleSums]
    constructor
    · intro h
      rcases List.mem_map.mp h with ⟨e, he, he2⟩
      have he1 : e.1 = s := by simpa using List.of_mem_filter he
      have hesc : e = (s, c) := Prod.ext he1 he2
      rw [← hesc]
      exact List.mem_of_mem_filter he
    · intro h
      exact List.mem_map.mpr ⟨(s, c), List.mem_filter.mpr ⟨h, by simp⟩, rfl⟩
  by_cases hP : List.Pairwise (· < ·) c ∧ (∀ i ∈ c, i < vals.length) ∧
      GAME_CONST.MIN_CUBES_FOR_SUM ≤ c.length ∧
      c.length ≤ GAME_CONST.MAX_CUBES_FOR_SUM ∧ idxSum vals c = s
  · rw [if_pos hP]
    exact count_one_of_nodup_mem hmapnd
      (hmem.mpr ((fapsEntries_mem vals GAME_CONST.MAX_CUBES_FOR_SUM s c).mpr hP))
  · rw [if_neg hP]
    apply count_zero_of_not_mem
    intro hc
    exact hP ((fapsEntries_mem vals GAME_CONST.MAX_CUBES_FOR_SUM s c).mp (hmem.mp hc))


/-- Sanity instance from the specification: on values 2, 3, 5, 7 the sum 5 is
reached exactly by the first two positions. -/
theorem findAllPossibleSums_sanity_five :
    findAllPossibleSums [2, 3, 5, 7] GAME_CONST.MAX_CUBES_FOR_SUM 5 = [[0, 1]] := by
  decide


/-- Sanity instance: on values 2, 3, 5, 7 the sum 10 is reached by positions
0, 1, 2 and by positions 1, 3, in push order. -/
theorem findAllPossibleSums_sanity_ten :
    findAllPossibleSums [2, 3, 5, 7] GAME_CONST.MAX_CUBES_FOR_SUM 10 = [[0, 1, 2], [1, 3]] := by
  decide


theorem getD_set_self {l : List α} {i : Nat} (h : i < l.length) (b d : α) :
    (l.set i b).getD i d = b := by
  rw [List.getD_eq_getElem?_getD, List.getElem?_set_self h]
  rfl


theorem getD_set_ne {l : List α} {i j : Nat} (h : i ≠ j) (b d : α) :
    (l.set i b).getD j d = l.getD j d := by
  rw [List.getD_eq_getElem?_getD, List.getElem?_set_ne h, ← List.getD_eq_getElem?_getD]


theorem getD_map_length (l : List (List α)) (i : Nat) :
    (l.map (fun col => col.length)).getD i 0 = (l.getD i []).length := by
  rw [List.getD_eq_getElem?_getD, List.getD_eq_getElem?_getD, List.getElem?_map]
  cases l[i]? <;> rfl


theorem getD_mem_of_lt {l : List α} {i : Nat} (h : i < l.length) (d : α) :
    l.getD i d ∈ l := by
  rw [List.getD_eq_getElem l d h]
  exact List.getElem_mem h


theorem settleList_getElem? (col : List Cube) (i : Nat) :
    (settleList col)[i]? = col[i]?.map (fun c =>
      if c.row ≠ (i : Int) then
        { c with falling := true, fallFrom := c.row, fallTo := (i : Int), fallProgress := 0, row := (i : Int) }
      else c) := by
  rw [settleList, List.getElem?_map, List.getElem?_enum]
  cases col[i]? <;> rfl


theorem settleList_length (col : List Cube) : (settleList col).length = col.length := by
  simp [settleList]


/-- C8: after settleColumn runs on a column, the stored rows are exactly the
positions 0 to length - 1 in array order, and each cube whose row changed is
the old cube marked falling from its old row to its new row (cubes whose row
already matched are untouched). -/
theorem C8_settle_contiguity (g : Game) (colIdx : Nat)
    (h : colIdx < g.columns.length) :
    ((_settleColumn g colIdx).columns.getD colIdx []).length
        = (g.columns.getD colIdx []).length ∧
    (∀ i, i < ((_settleColumn g colIdx).columns.getD colIdx []).length →
      (((_settleColumn g colIdx).columns.getD colIdx []).getD i defCube).row = (i : Int)) ∧
    (∀ i, i < (g.columns.getD colIdx []).length →
      ((_settleColumn g colIdx).columns.getD colIdx []).getD i defCube
        = (if (((g.columns.getD colIdx []).getD i defCube).row ≠ (i : Int)) then
             { (g.columns.getD colIdx []).getD i defCube with
                 falling := true,
                 fallFrom := ((g.columns.getD colIdx []).getD i defCube).row,
                 fallTo := (i : Int), fallProgress := 0, row := (i : Int) }
           else (g.columns.getD colIdx []).getD i defCube)) := by
  have hnew : (_settleColumn g colIdx).columns.getD colIdx []
      = settleList (g.columns.getD colIdx []) := by
    rw [_settleColumn]
    exact getD_set_self h _ _
  rw [hnew]
  refine ⟨settleList_length _, ?_, ?_⟩
  · intro i hi
    rw [settleList_length] at hi
    rw [List.getD_eq_getElem?_getD, settleList_getElem?,
      List.getElem?_eq_getElem hi]
    show (if ((g.columns.getD colIdx [])[i].row ≠ (i : Int)) then _ else _ : Cube).row = (i : Int)
    split
    case isTrue h' => rfl
    case isFalse h' => simpa using h'
  · intro i hi
    rw [List.getD_eq_getElem?_getD, settleList_getElem?,
      List.getElem?_eq_getElem hi, List.getD_eq_getElem _ defCube hi]
    rfl


theorem C8_settle_contiguity_witness :
    0 < settleWitnessGame.columns.length ∧
    (((_settleColumn settleWitnessGame 0).columns.getD 0 []).getD 0 defCube).row = 0 :=
  ⟨by decide, (C8_settle_contiguity settleWitnessGame 0 (by decide)).2.1 0 (by decide)⟩


/-- C7: with every column exactly at the maximal height, an attempted spawn
leaves every column and queue unchanged, emits exactly one game-over event
and only drops the playing flag. -/
theorem C7_full_board_spawn (g : Game) (rs : RSrc)
    (hcols : g.columns.length = 4)
    (hfull : ∀ col ∈ g.columns, col.length = 8) :
    _spawnNextCube g rs = ({ g with isPlaying := false }, rs.tail, [GEvent.gameOverEv]) ∧
    (_spawnNextCube g rs).1.columns = g.columns ∧
    (_spawnNextCube g rs).1.queues = g.queues ∧
    (_spawnNextCube g rs).2.2.count GEvent.gameOverEv = 1 := by
  have hlen : ∀ i, i < 4 → (g.columns.getD i []).length = 8 := by
    intro i hi
    exact hfull _ (getD_mem_of_lt (by omega) [])
  have hmain : _spawnNextCube g rs
      = ({ g with isPlaying := false }, rs.tail, [GEvent.gameOverEv]) := by
    have hmap : ∀ i, i < 4 → GAME_CONST.MAX_COLUMN_HEIGHT ≤
        (g.columns.map (fun col => col.length)).getD i 0 := by
      intro i hi
      rw [getD_map_length, hlen i hi]
      decide
    have hcand : listJoinMap
        (fun i =>
          if GAME_CONST.MAX_COLUMN_HEIGHT ≤
              (g.columns.map (fun col => col.length)).getD i 0 then []
          else List.replicate (max 1 (GAME_CONST.MAX_COLUMN_HEIGHT -
              (g.columns.map (fun col => col.length)).getD i 0)) i)
        (List.range g.columns.length) = [] := by
      rw [hcols]
      show listJoinMap _ [0, 1, 2, 3] = []
      simp only [listJoinMap]
      rw [if_pos (hmap 0 (by omega)), if_pos (hmap 1 (by omega)),
        if_pos (hmap 2 (by omega)), if_pos (hmap 3 (by omega))]
      rfl
    have hchoose : chooseColumn g rs
        = ((randomInt 0 ((GAME_CONST.NUM_COLUMNS : Int) - 1) (rhead rs)).toNat,
            rs.tail) := by
      rw [chooseColumn]
      simp only [hcand]
      rfl
    have hbnd := randomInt_bounds (rhead rs)
      (by norm_num [GAME_CONST.NUM_COLUMNS] : (0 : Int) ≤ (GAME_CONST.NUM_COLUMNS : Int) - 1)
    have hcollt : (randomInt 0 ((GAME_CONST.NUM_COLUMNS : Int) - 1) (rhead rs)).toNat < 4 := by
      have h1 := hbnd.1
      have h2 := hbnd.2
      have h3 : ((GAME_CONST.NUM_COLUMNS : Int) - 1) = 3 := by
        norm_num [GAME_CONST.NUM_COLUMNS]
      omega
    have hgo : _checkGameOver g = true := by
      rw [_checkGameOver]
      rw [List.all_eq_true]
      intro col hcol
      simp [hfull col hcol, GAME_CONST.MAX_COLUMN_HEIGHT]
    rw [_spawnNextCube, hchoose]
    simp only []
    rw [if_pos (by rw [hlen _ hcollt]; simp [GAME_CONST.MAX_COLUMN_HEIGHT]), if_pos hgo]
    rfl
  exact ⟨hmain, by rw [hmain], by rw [hmain], by rw [hmain]; rfl⟩


theorem C7_full_board_spawn_witness :
    (fullBoardGame.columns.length = 4 ∧ ∀ col ∈ fullBoardGame.columns, col.length = 8) ∧
    _spawnNextCube fullBoardGame [0]
      = ({ fullBoardGame with isPlaying := false }, [], [GEvent.gameOverEv]) :=
  ⟨⟨by decide, by decide⟩,
    (C7_full_board_spawn fullBoardGame [0] (by decide) (by decide)).1⟩


/-- C5 counterexample: toggling a cube that is mid-fall but not mid-removal is
not a no-op; its selected flag flips, refuting the claim that selection on a
mid-fall cube leaves the game state unchanged. -/
theorem C5_counterexample :
    ((fallingCubeGame.columns.getD 0 [])[0]?.map
        (fun c => (c.falling, c.removing, c.selected)) = some (true, false, false)) ∧
    (toggleCubeSelection fallingCubeGame 0 0 1000 []).1 ≠ fallingCubeGame ∧
    (((toggleCubeSelection fallingCubeGame 0 0 1000 []).1.columns.getD 0 [])[0]?.map
        (fun c => c.selected) = some true) := by
  decide


/-- C5 amended: toggling a cube that is mid-removal leaves the whole game
state and the random stream unchanged (a missing cube behaves the same); a
mid-fall cube that is not mid-removal is toggled normally, as the
counterexample shows. -/
theorem C5_removing_noop (g : Game) (colIdx rowIdx : Nat) (now : ℚ) (rs : RSrc)
    (cube : Cube) (hc : (g.columns.getD colIdx [])[rowIdx]? = some cube)
    (hr : cube.removing = true) :
    toggleCubeSelection g colIdx rowIdx now rs = (g, rs) := by
  rw [toggleCubeSelection, hc]
  simp [hr]


theorem C5_removing_noop_witness :
    ((removingCubeGame.columns.getD 0 [])[0]?
        = some { value := 3, column := 0, row := 0, removing := true }) ∧
    toggleCubeSelection removingCubeGame 0 0 1000 [] = (removingCubeGame, []) :=
  ⟨by decide, C5_removing_noop removingCubeGame 0 0 1000 []
    { value := 3, column := 0, row := 0, removing := true } (by decide) rfl⟩


theorem plantFrom_fields (cols : List Nat) :
    ∀ (vs : List Int) (g : Game) (i : Nat),
    (plantFrom g cols i vs).columns = g.columns ∧
    (plantFrom g cols i vs).queues = g.queues ∧
    (plantFrom g cols i vs).targets = g.targets ∧
    (plantFrom g cols i vs).score = g.score ∧
    (plantFrom g cols i vs).level = g.level ∧
    (plantFrom g cols i vs).comboCount = g.comboCount ∧
    (plantFrom g cols i vs).lastMatchTime = g.lastMatchTime ∧
    (plantFrom g cols i vs).targetsCleared = g.targetsCleared ∧
    (plantFrom g cols i vs).isPlaying = g.isPlaying := by
  intro vs
  induction vs with
  | nil =>
    intro g i
    rw [plantFrom]
    exact ⟨rfl, rfl, rfl, rfl, rfl, rfl, rfl, rfl, rfl⟩
  | cons v vs ih =>
    intro g i
    rw [plantFrom]
    exact ih (plantOne g (cols.getD (i % 4) 0) v) (i + 1)


theorem fallbackTarget_fields (cfg : LevelCfg) (g : Game) (rs : RSrc) :
    ((_generateFallbackTarget cfg g rs).2.1.columns = g.columns ∧
     (_generateFallbackTarget cfg g rs).2.1.queues = g.queues ∧
     (_generateFallbackTarget cfg g rs).2.1.targets = g.targets) ∧
    ((_generateFallbackTarget cfg g rs).2.1.score = g.score ∧
     (_generateFallbackTarget cfg g rs).2.1.comboCount = g.comboCount ∧
     (_generateFallbackTarget cfg g rs).2.1.level = g.level) := by
  rw [_generateFallbackTarget]
  have h := plantFrom_fields (fallbackCols cfg rs) (fallbackValues cfg rs) g 0
  exact ⟨⟨h.1, h.2.1, h.2.2.1⟩, ⟨h.2.2.2.1, h.2.2.2.2.2.1, h.2.2.2.2.1⟩⟩


theorem generateTarget_fields (g : Game) (rs : RSrc) :
    ((generateTarget g rs).2.1.columns = g.columns ∧
     (generateTarget g rs).2.1.queues = g.queues ∧
     (generateTarget g rs).2.1.targets = g.targets) ∧
    ((generateTarget g rs).2.1.score = g.score ∧
     (generateTarget g rs).2.1.comboCount = g.comboCount ∧
     (generateTarget g rs).2.1.level = g.level) := by
  rw [generateTarget]
  simp only []
  by_cases h1 : (fapsEntries (_getAllCubeValues g ++ _getUpcomingCubeValues g)
      GAME_CONST.MAX_CUBES_FOR_SUM).length ≠ 0
  · rw [if_pos h1]
    by_cases h2 : (validSumsOf (_getAllCubeValues g ++ _getUpcomingCubeValues g)
        (getLevelConfig g.level)).length ≠ 0
    · rw [if_pos h2]
      exact ⟨⟨rfl, rfl, rfl⟩, ⟨rfl, rfl, rfl⟩⟩
    · rw [if_neg h2]
      exact fallbackTarget_fields _ g rs
  · rw [if_neg h1]
    exact fallbackTarget_fields _ g rs


theorem checkLevelUp_fields (g : Game) :
    (_checkLevelUp g).comboCount = g.comboCount ∧ (_checkLevelUp g).score = g.score := by
  rw [_checkLevelUp]
  split
  · exact ⟨rfl, rfl⟩
  · exact ⟨rfl, rfl⟩


/-- The combo count immediately after a match, as computed by onTargetMatch. -/
theorem onTargetMatch_comboCount (g : Game) (cubes : List Cube) (now : ℚ) (rs : RSrc) :
    (_onTargetMatch g cubes now rs).1.comboCount
      = (if now - g.lastMatchTime < GAME_CONST.COMBO_TIMEOUT ∧ 0 < g.lastMatchTime
         then g.comboCount + 1 else 1) := by
  rw [_onTargetMatch]
  simp only []
  rw [(checkLevelUp_fields _).1]
  rw [(generateTarget_fields _ _).2.2.1]


/-- C10: when the last-match time is 0 (the state reset leaves), the next
match sets the combo count to exactly 1 for every match timestamp, even one
inside the 5000 ms combo window; it never increments the pre-reset count. -/
theorem C10_reset_first_match_combo (g : Game) (cubes : List Cube) (now : ℚ)
    (rs : RSrc) (h : g.lastMatchTime = 0) :
    (_onTargetMatch g cubes now rs).1.comboCount = 1 ∧
    (reset g).lastMatchTime = 0 := by
  refine ⟨?_, rfl⟩
  rw [onTargetMatch_comboCount, h]
  rw [if_neg]
  rintro ⟨-, hlt⟩
  exact absurd hlt (lt_irrefl 0)


theorem C10_reset_first_match_combo_witness :
    emptyGame.lastMatchTime = 0 ∧
    (_onTargetMatch { emptyGame with targets := [10] } [] 100 []).1.comboCount = 1 :=
  ⟨rfl, (C10_reset_first_match_combo { emptyGame with targets := [10] } [] 100 [] rfl).1⟩


/-- C6: a non-empty planned FIFO takes strict priority: generateNextCubeValue
pops and returns its head, touches nothing else and consumes no randomness;
in particular, after the fallback target generation has planted 4 and 6 into
columns 1 and 3, the next value for column 1 is 4 and the next for column 3
is 6. -/
theorem C6_planned_priority :
    (∀ (g : Game) (col : Nat) (rs : RSrc) (v : Int) (rest : List Int),
      g.plannedCubes.getD col [] = v :: rest →
      generateNextCubeValue g col rs
        = (v, { g with plannedCubes := g.plannedCubes.set col rest }, rs)) ∧
    ((_generateFallbackTarget (getLevelConfig 1) emptyGame
        [0, 3, 5, 0, 2, 0]).2.1.plannedCubes = [[], [4], [], [6]] ∧
     (generateNextCubeValue (_generateFallbackTarget (getLevelConfig 1) emptyGame
        [0, 3, 5, 0, 2, 0]).2.1 1 []).1 = 4 ∧
     (generateNextCubeValue
        (generateNextCubeValue (_generateFallbackTarget (getLevelConfig 1) emptyGame
          [0, 3, 5, 0, 2, 0]).2.1 1 []).2.1 3 []).1 = 6) := by
  constructor
  · intro g col rs v rest h
    rw [generateNextCubeValue, h]
  · exact ⟨by decide, by decide, by decide⟩


theorem C6_planned_priority_witness :
    plannedGame.plannedCubes.getD 1 [] = 4 :: [] ∧
    generateNextCubeValue plannedGame 1 []
      = (4, { plannedGame with plannedCubes := plannedGame.plannedCubes.set 1 [] }, []) :=
  ⟨by decide, C6_planned_priority.1 plannedGame 1 [] 4 [] (by decide)⟩


theorem weightedGo_ge (ws : List Int) :
    ∀ (r : Int) (idx : Nat), (idx : Int) - 1 ≤ weightedGo ws r idx := by
  induction ws with
  | nil => intro r idx; simp [weightedGo]
  | cons w ws ih =>
    intro r idx
    rw [weightedGo]
    split
    · omega
    · have := ih (r - w) (idx + 1)
      push_cast at this ⊢
      omega


theorem weightedRandom_nonneg (weights : List Int) (r : Nat)
    (h : weights ≠ []) : 0 ≤ _weightedRandom weights r := by
  cases weights with
  | nil => exact absurd rfl h
  | cons w ws =>
    rw [_weightedRandom, weightedGo]
    split
    · norm_num
    · show (0 : Int) ≤ weightedGo ws (((r : Int) % (max 1 (w :: ws).sum)) - w) 1
      have := weightedGo_ge ws ((((r : Int) % (max 1 (w :: ws).sum)) - w)) 1
      push_cast at this
      omega


theorem generateBalancedCube_pos (g : Game) (cfg : LevelCfg) (rs : RSrc)
    (h : 1 ≤ cfg.maxNumber) : 1 ≤ (_generateBalancedCube g cfg rs).1 := by
  show 1 ≤ _weightedRandom ((List.range' 1 cfg.maxNumber).map
    (fun (i : Nat) => max 1 (10 - 2 * ((countValue g (i : Int) : Int))))) (rhead rs) + 1
  have hne : ((List.range' 1 cfg.maxNumber).map
      (fun (i : Nat) => max 1 (10 - 2 * ((countValue g (i : Int) : Int))))) ≠ [] := by
    intro hc
    have hlen := congrArg List.length hc
    simp only [List.length_map, List.length_range', List.length_nil] at hlen
    omega
  have := weightedRandom_nonneg _ (rhead rs) hne
  omega


theorem helpfulValues_pos {existingValues : List Int} {target : Int}
    {maxValue : Nat} {v : Int}
    (hv : v ∈ _findHelpfulValues existingValues target maxValue) : 1 ≤ v := by
  rw [_findHelpfulValues] at hv
  rcases List.mem_filterMap.mp hv with ⟨x, hx, hfx⟩
  rcases List.mem_range'.mp hx with ⟨k, hk, hxk⟩
  by_cases hc : fapsHas (existingValues ++ [(x : Int)]) 4 target
  · rw [if_pos hc] at hfx
    have hxv : (x : Int) = v := Option.some.inj hfx
    omega
  · rw [if_neg hc] at hfx
    cases hfx


theorem helpfulCubeRest_pos (g : Game) (cfg : LevelCfg) (t : Int) (rs : RSrc)
    (hmax : 1 ≤ cfg.maxNumber) : 1 ≤ (helpfulCubeRest g cfg t rs).1 := by
  have hlohi : (1 : Int) ≤ (cfg.maxNumber : Int) := by exact_mod_cast hmax
  rw [helpfulCubeRest]
  split
  · exact (randomInt_bounds _ hlohi).1
  · simp only []
    split
    case isTrue hne =>
      have hne' : _findHelpfulValues (_getAllCubeValues g) t cfg.maxNumber ≠ [] := by
        intro hc
        rw [hc] at hne
        exact hne rfl
      rcases randomChoice_mem (rhead rs) hne' with ⟨v, hv, hmem⟩
      rw [hv]
      exact helpfulValues_pos hmem
    case isFalse hne =>
      exact (randomInt_bounds _ hlohi).1


theorem generateHelpfulCube_pos (g : Game) (cfg : LevelCfg) (rs : RSrc)
    (hmax : 1 ≤ cfg.maxNumber) : 1 ≤ (_generateHelpfulCube g cfg rs).1 := by
  have hlohi : (1 : Int) ≤ (cfg.maxNumber : Int) := by exact_mod_cast hmax
  rw [_generateHelpfulCube]
  cases hh : g.targets.head? with
  | none => exact (randomInt_bounds _ hlohi).1
  | some t =>
    simp only []
    split
    · exact (randomInt_bounds _ hlohi).1
    · split
      case isTrue hneed =>
        split
        · exact hneed.1
        · exact helpfulCubeRest_pos g cfg t rs.tail hmax
      case isFalse hneed =>
        exact helpfulCubeRest_pos g cfg t rs hmax


/-- C9: for every column and state whose planned FIFOs hold only positive
values (the invariant the fallback planner maintains), the generated cube
value is at least 1 on every branch, and the level configuration always has a
positive maximal face value. -/
theorem C9_next_value_positive (g : Game) (col : Nat) (rs : RSrc)
    (hplanned : ∀ l ∈ g.plannedCubes, ∀ v ∈ l, 1 ≤ v) :
    1 ≤ (generateNextCubeValue g col rs).1 ∧
    1 ≤ (getLevelConfig g.level).maxNumber := by
  have hmax : 1 ≤ (getLevelConfig g.level).maxNumber := by
    have := getLevelConfig_maxNumber g.level
    omega
  refine ⟨?_, hmax⟩
  rw [generateNextCubeValue]
  cases hp : g.plannedCubes.getD col [] with
  | cons v rest =>
    simp only []
    have hcol : col < g.plannedCubes.length := by
      by_contra hc
      rw [List.getD_eq_default _ _ (by omega)] at hp
      cases hp
    have hv : v ∈ g.plannedCubes.getD col [] := by
      rw [hp]
      exact List.mem_cons_self v rest
    exact hplanned _ (getD_mem_of_lt hcol []) v hv
  | nil =>
    show 1 ≤ (_generateAdaptiveCube g col (getLevelConfig g.level) rs).1
    rw [_generateAdaptiveCube]
    split
    · exact generateHelpfulCube_pos g _ rs hmax
    · exact generateBalancedCube_pos g _ rs hmax


theorem C9_next_value_positive_witness :
    (∀ l ∈ emptyGame.plannedCubes, ∀ v ∈ l, 1 ≤ v) ∧
    1 ≤ (generateNextCubeValue emptyGame 0 [7]).1 :=
  ⟨by decide, (C9_next_value_positive emptyGame 0 [7] (by decide)).1⟩


/-- C4 counterexample: the three pools are built by filtering on the
existence of a combination of the given size, not by partitioning on the
minimum size, so they are not disjoint: a sum whose minimum combination size
is 2 also lies in the 3-cube pool.  Moreover, with a roll preferring the
empty 2-cube pool the code falls through to the 3-cube pool, not to the full
valid set as claimed. -/
theorem C4_counterexample :
    (mixedValidSums ≠ [] ∧
      by2Pool mixedValidSums = mixedValidSums ∧
      by3Pool mixedValidSums = mixedValidSums) ∧
    (by2Pool no2ValidSums = [] ∧
      chosenPool no2ValidSums 0 = [(9, [[0, 1, 2]])] ∧
      chosenPool no2ValidSums 0 ≠ no2ValidSums) := by
  decide


theorem chosenPool_sub (validSums : List (Int × List (List Nat))) (roll : Nat) :
    ∀ e ∈ chosenPool validSums roll, e ∈ validSums := by
  intro e he
  rw [chosenPool] at he
  split at he
  · exact List.mem_of_mem_filter he
  · split at he
    · exact List.mem_of_mem_filter he
    · split at he
      · exact List.mem_of_mem_filter he
      · exact he


theorem chosenPool_ne_nil (validSums : List (Int × List (List Nat)))
    (roll : Nat) (hne : validSums ≠ []) :
    (chosenPool validSums roll).length ≠ 0 := by
  rw [chosenPool]
  split
  case isTrue h => exact h.2
  case isFalse h =>
    split
    case isTrue h2 => exact h2.2
    case isFalse h2 =>
      split
      case isTrue h3 => exact h3
      case isFalse h3 =>
        simpa [List.length_eq_zero] using hne


/-- C4 amended: the three pools are the valid sums having some combination of
exactly 2, exactly 3, and at least 4 cubes (possibly overlapping); the roll
prefers the 2-cube pool below 0.4 and the 3-cube pool below 0.8, and an empty
preferred pool falls through the remaining branches in order (3-cube pool,
then 4-plus pool, then the full valid set) rather than directly to the full
valid set; the returned sum always belongs to the valid sums. -/
theorem C4_difficulty_selection (validSums : List (Int × List (List Nat)))
    (rs : RSrc) (hne : validSums ≠ []) :
    (∃ e ∈ validSums, (_chooseSumByDifficulty validSums rs).1 = e.1) ∧
    (∀ e ∈ chosenPool validSums (rhead rs % 10), e ∈ validSums) ∧
    (rhead rs % 10 < 4 → (by2Pool validSums).length ≠ 0 →
      chosenPool validSums (rhead rs % 10) = by2Pool validSums) ∧
    (¬(rhead rs % 10 < 4 ∧ (by2Pool validSums).length ≠ 0) →
      rhead rs % 10 < 8 → (by3Pool validSums).length ≠ 0 →
      chosenPool validSums (rhead rs % 10) = by3Pool validSums) ∧
    (¬(rhead rs % 10 < 4 ∧ (by2Pool validSums).length ≠ 0) →
      ¬(rhead rs % 10 < 8 ∧ (by3Pool validSums).length ≠ 0) →
      (by4Pool validSums).length ≠ 0 →
      chosenPool validSums (rhead rs % 10) = by4Pool validSums) ∧
    (¬(rhead rs % 10 < 4 ∧ (by2Pool validSums).length ≠ 0) →
      ¬(rhead rs % 10 < 8 ∧ (by3Pool validSums).length ≠ 0) →
      (by4Pool validSums).length = 0 →
      chosenPool validSums (rhead rs % 10) = validSums) := by
  refine ⟨?_, chosenPool_sub validSums _, ?_, ?_, ?_, ?_⟩
  · have hpne : chosenPool validSums (rhead rs % 10) ≠ [] := by
      intro hc
      exact chosenPool_ne_nil validSums (rhead rs % 10) hne (by rw [hc]; rfl)
    rcases randomChoice_mem (rhead rs.tail) hpne with ⟨e, he, hmem⟩
    refine ⟨e, chosenPool_sub validSums _ e hmem, ?_⟩
    rw [_chooseSumByDifficulty]
    simp only [he, Option.map_some', Option.getD_some]
  · intro h1 h2
    rw [chosenPool, if_pos ⟨h1, h2⟩]
  · intro h1 h2 h3
    rw [chosenPool, if_neg h1, if_pos ⟨h2, h3⟩]
  · intro h1 h2 h3
    rw [chosenPool, if_neg h1, if_neg h2, if_pos h3]
  · intro h1 h2 h3
    rw [chosenPool, if_neg h1, if_neg h2, if_neg (by omega)]


theorem C4_difficulty_selection_witness :
    mixedValidSums ≠ [] ∧
    (∃ e ∈ mixedValidSums, (_chooseSumByDifficulty mixedValidSums [0, 0]).1 = e.1) :=
  ⟨by decide, (C4_difficulty_selection mixedValidSums [0, 0] (by decide)).1⟩


/-- C1 counterexample: with the level-1 configuration (maxTarget 15) and a
stream drawing three values of 6, the fallback plants cubes summing to 18 but
returns the clamped target 15, so the planted values do not sum to the
returned target and the planted cubes alone cannot reach it. -/
theorem C1_counterexample :
    (_generateFallbackTarget (getLevelConfig 1) emptyGame [1, 5, 5, 5, 0, 0, 0]).1 = 15 ∧
    (listJoinMap id (_generateFallbackTarget (getLevelConfig 1) emptyGame
        [1, 5, 5, 5, 0, 0, 0]).2.1.plannedCubes).sum = 18 ∧
    (15 : Int) ≠ 18 := by
  decide


theorem drawValues_length (maxN : Nat) :
    ∀ (n : Nat) (rs : RSrc), (drawValues maxN n rs).1.length = n := by
  intro n
  induction n with
  | zero => intro rs; rfl
  | succ n ih =>
    intro rs
    show (randomInt 1 (maxN : Int) (rhead rs) :: (drawValues maxN n rs.tail).1).length = n + 1
    rw [List.length_cons, ih rs.tail]


theorem drawValues_mem_bounds (maxN : Nat) (hmax : 1 ≤ maxN) :
    ∀ (n : Nat) (rs : RSrc) (v : Int),
    v ∈ (drawValues maxN n rs).1 → 1 ≤ v ∧ v ≤ (maxN : Int) := by
  intro n
  induction n with
  | zero =>
    intro rs v hv
    simp [drawValues] at hv
  | succ n ih =>
    intro rs v hv
    have hv' : v ∈ randomInt 1 (maxN : Int) (rhead rs) :: (drawValues maxN n rs.tail).1 := hv
    rcases List.mem_cons.mp hv' with rfl | hmem
    · exact randomInt_bounds (rhead rs) (by exact_mod_cast hmax)
    · exact ih rs.tail v hmem


theorem fallbackNumCubes_cases (rs : RSrc) :
    fallbackNumCubes rs = 2 ∨ fallbackNumCubes rs = 3 := by
  rw [fallbackNumCubes]
  split
  · exact Or.inl rfl
  · exact Or.inr rfl


theorem plantOne_getD_self (g : Game) (c : Nat) (v : Int)
    (h : c < g.plannedCubes.length) :
    (plantOne g c v).plannedCubes.getD c [] = g.plannedCubes.getD c [] ++ [v] :=
  getD_set_self h _ _


theorem plantOne_getD_ne (g : Game) (c c' : Nat) (v : Int) (h : c ≠ c') :
    (plantOne g c v).plannedCubes.getD c' [] = g.plannedCubes.getD c' [] :=
  getD_set_ne h _ _


theorem plantOne_length (g : Game) (c : Nat) (v : Int) :
    (plantOne g c v).plannedCubes.length = g.plannedCubes.length := by
  simp [plantOne]


theorem plantFrom_two (g : Game) (cols : List Nat) (a b : Int) :
    plantFrom g cols 0 [a, b]
      = plantOne (plantOne g (cols.getD 0 0) a) (cols.getD 1 0) b := by
  show plantFrom (plantOne g (cols.getD (0 % 4) 0) a) cols 1 [b]
      = plantOne (plantOne g (cols.getD 0 0) a) (cols.getD 1 0) b
  rfl


theorem plantFrom_three (g : Game) (cols : List Nat) (a b c : Int) :
    plantFrom g cols 0 [a, b, c]
      = plantOne (plantOne (plantOne g (cols.getD 0 0) a) (cols.getD 1 0) b)
          (cols.getD 2 0) c := rfl


/-- C1 amended: on the fallback path the 2 or 3 drawn values (each in 1 ..
maxNumber) are pushed onto distinct columns, and the returned target is the
sum of those values clamped into the valid target range.  Whenever the
unclamped sum already lies within the range, the returned target equals the
planted sum (and is hence solvable once the planned cubes land); when the
clamp is active, the planted values do not sum to the returned target, as the
counterexample shows. -/
theorem C1_fallback_target (cfg : LevelCfg) (g : Game) (rs : RSrc)
    (hmax : 1 ≤ cfg.maxNumber) (hplen : g.plannedCubes.length = 4) :
    ((fallbackValues cfg rs).length = 2 ∨ (fallbackValues cfg rs).length = 3) ∧
    (∀ v ∈ fallbackValues cfg rs, 1 ≤ v ∧ v ≤ (cfg.maxNumber : Int)) ∧
    ((fallbackCols cfg rs).Nodup ∧ (fallbackCols cfg rs).length = 4 ∧
      ∀ c ∈ fallbackCols cfg rs, c < 4) ∧
    (∀ k, k < (fallbackValues cfg rs).length →
      (_generateFallbackTarget cfg g rs).2.1.plannedCubes.getD
          ((fallbackCols cfg rs).getD k 0) []
        = g.plannedCubes.getD ((fallbackCols cfg rs).getD k 0) []
            ++ [(fallbackValues cfg rs).getD k 0]) ∧
    ((_generateFallbackTarget cfg g rs).1
      = clampInt (fallbackValues cfg rs).sum GAME_CONST.MIN_TARGET cfg.maxTarget) ∧
    (GAME_CONST.MIN_TARGET ≤ (fallbackValues cfg rs).sum →
      (fallbackValues cfg rs).sum ≤ cfg.maxTarget →
      (_generateFallbackTarget cfg g rs).1 = (fallbackValues cfg rs).sum) := by
  have hlen : (fallbackValues cfg rs).length = fallbackNumCubes rs := by
    rw [fallbackValues]
    exact drawValues_length cfg.maxNumber (fallbackNumCubes rs) rs.tail
  have hnum := fallbackNumCubes_cases rs
  have hvl : (fallbackValues cfg rs).length = 2 ∨ (fallbackValues cfg rs).length = 3 := by
    rw [hlen]
    exact hnum
  have hperm := shuffle_perm ([0, 1, 2, 3] : List Nat) (fallbackValuesRest cfg rs)
  have hnodup : (fallbackCols cfg rs).Nodup := by
    rw [fallbackCols]
    exact hperm.nodup_iff.mpr (by decide)
  have hclen : (fallbackCols cfg rs).length = 4 := by
    rw [fallbackCols, hperm.length_eq]
    rfl
  have hcmem : ∀ c ∈ fallbackCols cfg rs, c < 4 := by
    intro c hc
    rw [fallbackCols] at hc
    have := hperm.mem_iff.mp hc
    simp at this
    omega
  refine ⟨hvl, ?_, ⟨hnodup, hclen, hcmem⟩, ?_, rfl, ?_⟩
  · intro v hv
    rw [fallbackValues] at hv
    exact drawValues_mem_bounds cfg.maxNumber hmax (fallbackNumCubes rs) rs.tail v hv
  · intro k hk
    have hres : (_generateFallbackTarget cfg g rs).2.1
        = plantFrom g (fallbackCols cfg rs) 0 (fallbackValues cfg rs) := rfl
    rw [hres]
    rcases hcols : fallbackCols cfg rs with _ | ⟨c0, t0⟩
    · rw [hcols] at hclen; simp at hclen
    rcases t0 with _ | ⟨c1, t1⟩
    · rw [hcols] at hclen; simp at hclen
    rcases t1 with _ | ⟨c2, t2⟩
    · rw [hcols] at hclen; simp at hclen
    rcases t2 with _ | ⟨c3, t3⟩
    · rw [hcols] at hclen; simp at hclen
    have ht3 : t3 = [] := by
      rw [hcols] at hclen
      simp at hclen
      exact hclen
    subst ht3
    have hnd : c0 ≠ c1 ∧ c0 ≠ c2 ∧ c1 ≠ c2 := by
      rw [hcols] at hnodup
      simp [List.nodup_cons] at hnodup
      exact ⟨hnodup.1.1, hnodup.1.2.1, hnodup.2.1.1⟩
    have hb0 : c0 < 4 := hcmem c0 (by rw [hcols]; simp)
    have hb1 : c1 < 4 := hcmem c1 (by rw [hcols]; simp)
    have hb2 : c2 < 4 := hcmem c2 (by rw [hcols]; simp)
    rcases hvals : fallbackValues cfg rs with _ | ⟨a, u0⟩
    · rw [hvals] at hvl; simp at hvl
    rcases u0 with _ | ⟨b, u1⟩
    · rw [hvals] at hvl; simp at hvl
    have e0 : [c0, c1, c2, c3].getD 0 0 = c0 := rfl
    have e1 : [c0, c1, c2, c3].getD 1 0 = c1 := rfl
    have e2 : [c0, c1, c2, c3].getD 2 0 = c2 := rfl
    rcases u1 with _ | ⟨c, u2⟩
    · have v0 : [a, b].getD 0 0 = a := rfl
      have v1 : [a, b].getD 1 0 = b := rfl
      rw [plantFrom_two, e0, e1]
      rw [hvals] at hk
      simp only [List.length_cons, List.length_nil] at hk
      interval_cases k
      · rw [e0, v0, plantOne_getD_ne _ _ _ _ hnd.1.symm,
          plantOne_getD_self g c0 a (by omega)]
      · rw [e1, v1, plantOne_getD_self _ c1 b (by rw [plantOne_length]; omega),
          plantOne_getD_ne _ _ _ _ hnd.1]
    · have hu2 : u2 = [] := by
        rw [hvals] at hvl
        simp only [List.length_cons, List.length_nil] at hvl
        rcases hvl with h | h
        · omega
        · exact List.length_eq_zero.mp (by omega)
      subst hu2
      have v0 : [a, b, c].getD 0 0 = a := rfl
      have v1 : [a, b, c].getD 1 0 = b := rfl
      have v2 : [a, b, c].getD 2 0 = c := rfl
      rw [plantFrom_three, e0, e1, e2]
      rw [hvals] at hk
      simp only [List.length_cons, List.length_nil] at hk
      interval_cases k
      · rw [e0, v0, plantOne_getD_ne _ _ _ _ hnd.2.1.symm,
          plantOne_getD_ne _ _ _ _ hnd.1.symm,
          plantOne_getD_self g c0 a (by omega)]
      · rw [e1, v1, plantOne_getD_ne _ _ _ _ hnd.2.2.symm,
          plantOne_getD_self _ c1 b (by rw [plantOne_length]; omega),
          plantOne_getD_ne _ _ _ _ hnd.1]
      · rw [e2, v2, plantOne_getD_self _ c2 c
            (by rw [plantOne_length, plantOne_length]; omega),
          plantOne_getD_ne _ _ _ _ hnd.2.2,
          plantOne_getD_ne _ _ _ _ hnd.2.1]
  · intro h1 h2
    show clampInt (fallbackValues cfg rs).sum GAME_CONST.MIN_TARGET cfg.maxTarget
        = (fallbackValues cfg rs).sum
    rw [clampInt]
    omega


/-- The score immediately after a match, as computed by onTargetMatch: the old
score plus the floor of target times cube count times the staged multiplier. -/
theorem onTargetMatch_score (g : Game) (cubes : List Cube) (now : ℚ) (rs : RSrc) :
    (_onTargetMatch g cubes now rs).1.score
      = g.score + Int.floor (((g.targets.headD 0 : Int) : ℚ) * (cubes.length : ℚ) *
          (let comboCount' :=
            if now - g.lastMatchTime < GAME_CONST.COMBO_TIMEOUT ∧ 0 < g.lastMatchTime
            then g.comboCount + 1 else 1
          let m2 : ℚ := if 2 ≤ comboCount'
            then 1 * (1 + ((comboCount' : ℚ) - 1) * (1 / 2)) else 1
          let m3 := if 25 ≤ g.targets.headD 0 then m2 * 3
            else if 20 ≤ g.targets.headD 0 then m2 * 2 else m2
          if 0 < _checkColumnClears g.columns cubes then m3 * 2 else m3)) := by
  rw [_onTargetMatch]
  simp only []
  rw [(checkLevelUp_fields _).2]
  rw [(generateTarget_fields _ _).2.1]


theorem mem_foldl_insKey [DecidableEq α] :
    ∀ (l : List α) (acc : List α) (x : α),
    (x ∈ l.foldl (fun acc k => if k ∈ acc then acc else acc ++ [k]) acc ↔
      x ∈ acc ∨ x ∈ l) := by
  intro l
  induction l with
  | nil => intro acc x; simp
  | cons k rest ih =>
    intro acc x
    rw [List.foldl_cons, ih]
    by_cases hk : k ∈ acc
    · rw [if_pos hk]
      constructor
      · rintro (h | h)
        · exact Or.inl h
        · exact Or.inr (List.mem_cons_of_mem k h)
      · rintro (h | h)
        · exact Or.inl h
        · rcases List.mem_cons.mp h with rfl | h'
          · exact Or.inl hk
          · exact Or.inr h'
    · rw [if_neg hk]
      constructor
      · rintro (h | h)
        · rcases List.mem_append.mp h with h' | h'
          · exact Or.inl h'
          · simp only [List.mem_singleton] at h'
            exact Or.inr (h' ▸ List.mem_cons_self k rest)
        · exact Or.inr (List.mem_cons_of_mem k h)
      · rintro (h | h)
        · exact Or.inl (List.mem_append.mpr (Or.inl h))
        · rcases List.mem_cons.mp h with rfl | h'
          · exact Or.inl (List.mem_append.mpr (Or.inr (by simp)))
          · exact Or.inr h'


theorem mem_firstKeys [DecidableEq α] (l : List α) (x : α) :
    x ∈ firstKeys l ↔ x ∈ l := by
  rw [firstKeys, mem_foldl_insKey]
  simp


theorem countP_listJoinMap (p : β → Bool) (f : α → List β) :
    ∀ (l : List α),
    (listJoinMap f l).countP p = (l.map (fun a => (f a).countP p)).sum := by
  intro l
  induction l with
  | nil => rfl
  | cons x xs ih =>
    rw [listJoinMap, List.countP_append, ih, List.map_cons, List.sum_cons]


/-- In a board where every cube carries the index of its column, the matched
cubes counted for one column are exactly the selected non-removing cubes of
that column. -/
theorem countP_selected_column :
    ∀ (cols : List (List Cube)) (base c : Nat),
    (∀ j, j < cols.length → ∀ cube ∈ cols.getD j [], cube.column = base + j) →
    ((listJoinMap (fun col => col.filter (fun cu => cu.selected && !cu.removing))
        cols).countP (fun cu => cu.column == c))
      = (if base ≤ c ∧ c < base + cols.length then
          ((cols.getD (c - base) []).filter
            (fun cu => cu.selected && !cu.removing)).length
        else 0) := by
  intro cols
  induction cols with
  | nil =>
    intro base c hwf
    rw [if_neg (by simp only [List.length_nil]; omega)]
    rfl
  | cons col rest ih =>
    intro base c hwf
    rw [listJoinMap, List.countP_append]
    have hcol : ∀ cube ∈ col, cube.column = base := by
      intro cube hc
      have := hwf 0 (by simp) cube (by simpa using hc)
      omega
    have hrest := ih (base + 1) c (by
      intro j hj cube hc
      have := hwf (j + 1) (by simpa using Nat.succ_lt_succ hj) cube (by simpa using hc)
      omega)
    rw [hrest]
    by_cases hbc : c = base
    · subst hbc
      have hall : (col.filter (fun cu => cu.selected && !cu.removing)).countP
          (fun cu => cu.column == c) =
          (col.filter (fun cu => cu.selected && !cu.removing)).length := by
        rw [List.countP_eq_length]
        intro cu hcu
        have := hcol cu (List.mem_of_mem_filter hcu)
        simp [this]
      rw [hall, if_neg (by omega), if_pos (by simp only [List.length_cons]; omega)]
      simp [Nat.sub_self]
    · have hzero : (col.filter (fun cu => cu.selected && !cu.removing)).countP
          (fun cu => cu.column == c) = 0 := by
        rw [List.countP_eq_zero]
        intro cu hcu
        have := hcol cu (List.mem_of_mem_filter hcu)
        simp [this]
        omega
      rw [hzero]
      by_cases hin : base + 1 ≤ c ∧ c < base + 1 + rest.length
      · rw [if_pos hin, if_pos (by simp only [List.length_cons]; omega)]
        have hsub : c - base = (c - (base + 1)) + 1 := by omega
        rw [hsub]
        simp
      · rw [if_neg hin, if_neg (by simp only [List.length_cons]; omega)]


/-- The clear test of checkColumnClears matches the natural reading: some
column containing at least one matched cube has all of its cubes matched.
Stated for the real call site, where the matched cubes are the selected
non-removing cubes and each cube carries its column index. -/
theorem columnClear_iff (g : Game)
    (hwf : ∀ j, j < g.columns.length → ∀ cube ∈ g.columns.getD j [], cube.column = j) :
    (0 < _checkColumnClears g.columns (getSelectedCubes g) ↔
      ∃ c, c < g.columns.length ∧ g.columns.getD c [] ≠ [] ∧
        ∀ cube ∈ g.columns.getD c [], cube.selected = true ∧ cube.removing = false) := by
  have hcount : ∀ c, c < g.columns.length →
      (getSelectedCubes g).countP (fun cu => cu.column == c)
        = ((g.columns.getD c []).filter (fun cu => cu.selected && !cu.removing)).length := by
    intro c hc
    have := countP_selected_column g.columns 0 c (by simpa using hwf)
    rw [getSelectedCubes, this, if_pos (by omega)]
    simp
  rw [_checkColumnClears, List.length_pos]
  constructor
  · intro hne
    rcases List.exists_mem_of_ne_nil _ hne with ⟨c, hcmem⟩
    rcases List.mem_filter.mp hcmem with ⟨hckey, hceq⟩
    have hcc : ∃ cube ∈ getSelectedCubes g, cube.column = c := by
      have := (mem_firstKeys _ c).mp hckey
      rcases List.mem_map.mp this with ⟨cube, hcube, hcol⟩
      exact ⟨cube, hcube, hcol⟩
    rcases hcc with ⟨cube, hcube, hcol⟩
    rcases mem_listJoinMap.mp hcube with ⟨colList, hcolList, hcubeIn⟩
    rcases List.getElem_of_mem hcolList with ⟨j, hj, hgetj⟩
    have hgetDj : g.columns.getD j [] = colList := by
      rw [List.getD_eq_getElem _ _ hj, hgetj]
    have hcubecol : cube.column = j := by
      apply hwf j hj
      rw [hgetDj]
      exact List.mem_of_mem_filter hcubeIn
    have hcj : c = j := by rw [← hcol, hcubecol]
    subst hcj
    refine ⟨c, hj, ?_, ?_⟩
    · intro hnil
      rw [hgetDj] at hnil
      rw [hnil] at hcubeIn
      simp at hcubeIn
    · have hceq' : (getSelectedCubes g).countP (fun cu => cu.column == c)
          = (g.columns.getD c []).length := by
        simpa using hceq
      rw [hcount c hj] at hceq'
      have hallsel := List.countP_eq_length.mp (by
        rw [List.countP_eq_length_filter]
        exact hceq')
      intro cu hcu
      have := hallsel cu hcu
      simp only [Bool.and_eq_true, Bool.not_eq_true'] at this
      exact this
  · rintro ⟨c, hc, hne, hall⟩
    have hfilterall : (g.columns.getD c []).filter
        (fun cu => cu.selected && !cu.removing) = g.columns.getD c [] := by
      apply List.filter_eq_self.mpr
      intro cu hcu
      have := hall cu hcu
      simp [this.1, this.2]
    rcases List.exists_mem_of_ne_nil _ hne with ⟨cube, hcube⟩
    have hcubesel : cube ∈ getSelectedCubes g := by
      apply mem_listJoinMap.mpr
      refine ⟨g.columns.getD c [], getD_mem_of_lt hc [], ?_⟩
      rw [hfilterall]
      exact hcube
    have hcubecol : cube.column = c := hwf c hc cube hcube
    apply List.ne_nil_of_mem (a := c)
    apply List.mem_filter.mpr
    constructor
    · apply (mem_firstKeys _ c).mpr
      apply List.mem_map.mpr
      exact ⟨cube, hcubesel, hcubecol⟩
    · have := hcount c hc
      rw [hfilterall] at this
      simp [this]


theorem match20_score :
    (_onTargetMatch match20Game (getSelectedCubes match20Game) 1500 []).1.score = 80 := by
  rw [onTargetMatch_score]
  have hclear : _checkColumnClears match20Game.columns (getSelectedCubes match20Game) = 0 := by
    decide
  rw [hclear]
  have hlen : (getSelectedCubes match20Game).length = 2 := by decide
  rw [hlen]
  have htgt : match20Game.targets.headD 0 = 20 := rfl
  rw [htgt]
  have htime : match20Game.lastMatchTime = 0 := rfl
  have hcombo : match20Game.comboCount = 0 := rfl
  rw [htime, hcombo]
  have hscore : match20Game.score = 0 := rfl
  rw [hscore]
  norm_num [GAME_CONST.COMBO_TIMEOUT]


theorem match25_score :
    (_onTargetMatch match25Game (getSelectedCubes match25Game) 2000 []).1.score = 450 := by
  rw [onTargetMatch_score]
  have hclear : _checkColumnClears match25Game.columns (getSelectedCubes match25Game) = 0 := by
    decide
  rw [hclear]
  have hlen : (getSelectedCubes match25Game).length = 3 := by decide
  rw [hlen]
  have htgt : match25Game.targets.headD 0 = 25 := rfl
  rw [htgt]
  have htime : match25Game.lastMatchTime = 1000 := rfl
  have hcombo : match25Game.comboCount = 2 := rfl
  rw [htime, hcombo]
  have hscore : match25Game.score = 0 := rfl
  rw [hscore]
  norm_num [GAME_CONST.COMBO_TIMEOUT]


/-- C3 counterexample: a match on target 20 with 2 cubes, combo count 1 and
no column clear awards 80 points, not the 40 the claim asserts: the big-sum
doubling applies at target 20 as well. -/
theorem C3_counterexample :
    (_onTargetMatch match20Game (getSelectedCubes match20Game) 1500 []).1.score = 80 ∧
    (getSelectedCubes match20Game).length = 2 ∧
    match20Game.targets.headD 0 = 20 ∧
    match20Game.lastMatchTime = 0 ∧
    _checkColumnClears match20Game.columns (getSelectedCubes match20Game) = 0 ∧
    (80 : Int) ≠ 40 := by
  refine ⟨match20_score, by decide, rfl, rfl, by decide, by decide⟩


/-- C3 amended: the points of a match equal the floor of target times cube
count times the staged multiplier (combo factor when the combo count is at
least 2; times 3 at target 25 and above, else times 2 at target 20 and above;
times 2 when a column is cleared, a column clearing exactly when all of its
cubes are in the matched set); in particular target 20 with 2 cubes, combo
count 1 and no clear gives 80 points (not 40), and target 25 with 3 cubes,
combo count 3 and no clear gives 450 points. -/
theorem C3_match_scoring :
    (∀ (g : Game) (cubes : List Cube) (now : ℚ) (rs : RSrc) (t : Int) (ts : List Int),
      g.targets = t :: ts →
      (_onTargetMatch g cubes now rs).1.score
        = g.score + Int.floor ((t : ℚ) * (cubes.length : ℚ) *
            ((if 2 ≤ (if now - g.lastMatchTime < GAME_CONST.COMBO_TIMEOUT ∧
                  0 < g.lastMatchTime then g.comboCount + 1 else 1)
              then 1 + (((if now - g.lastMatchTime < GAME_CONST.COMBO_TIMEOUT ∧
                  0 < g.lastMatchTime then g.comboCount + 1 else 1) : ℚ) - 1) * (1 / 2)
              else 1) *
             (if 25 ≤ t then 3 else if 20 ≤ t then 2 else 1) *
             (if 0 < _checkColumnClears g.columns cubes then 2 else 1)))) ∧
    (∀ (g : Game),
      (∀ j, j < g.columns.length → ∀ cube ∈ g.columns.getD j [], cube.column = j) →
      (0 < _checkColumnClears g.columns (getSelectedCubes g) ↔
        ∃ c, c < g.columns.length ∧ g.columns.getD c [] ≠ [] ∧
          ∀ cube ∈ g.columns.getD c [], cube.selected = true ∧ cube.removing = false)) ∧
    (_onTargetMatch match20Game (getSelectedCubes match20Game) 1500 []).1.score = 80 ∧
    (_onTargetMatch match25Game (getSelectedCubes match25Game) 2000 []).1.score = 450 := by
  refine ⟨?_, fun g hwf => columnClear_iff g hwf, match20_score, match25_score⟩
  intro g cubes now rs t ts hts
  rw [onTargetMatch_score, hts]
  simp only [List.headD_cons]
  congr 1
  apply congrArg
  congr 1
  split_ifs <;> push_cast <;> ring


theorem C3_match_scoring_witness :
    match20Game.targets = 20 :: [] ∧
    (_onTargetMatch match20Game (getSelectedCubes match20Game) 1500 []).1.score
      = match20Game.score + Int.floor (((20 : Int) : ℚ) *
          ((getSelectedCubes match20Game).length : ℚ) *
          ((if 2 ≤ (if (1500 : ℚ) - match20Game.lastMatchTime < GAME_CONST.COMBO_TIMEOUT ∧
                0 < match20Game.lastMatchTime then match20Game.comboCount + 1 else 1)
            then 1 + (((if (1500 : ℚ) - match20Game.lastMatchTime < GAME_CONST.COMBO_TIMEOUT ∧
                0 < match20Game.lastMatchTime then match20Game.comboCount + 1 else 1) : ℚ)
                - 1) * (1 / 2)
            else 1) *
           (if (25 : Int) ≤ 20 then 3 else if (20 : Int) ≤ 20 then 2 else 1) *
           (if 0 < _checkColumnClears match20Game.columns (getSelectedCubes match20Game)
            then 2 else 1))) :=
  ⟨rfl, C3_match_scoring.1 match20Game (getSelectedCubes match20Game) 1500 [] 20 [] rfl⟩

theorem plantOne_planned_pos (g : Game) (c : Nat) (v : Int)
    (hg : ∀ l ∈ g.plannedCubes, ∀ w ∈ l, 1 ≤ w) (hv : 1 ≤ v) :
    ∀ l ∈ (plantOne g c v).plannedCubes, ∀ w ∈ l, 1 ≤ w := by
  intro l hl w hw
  rcases List.mem_or_eq_of_mem_set hl with h | h
  · exact hg l h w hw
  · subst h
    rcases List.mem_append.mp hw with h | h
    · by_cases hc : c < g.plannedCubes.length
      · exact hg _ (getD_mem_of_lt hc []) w h
      · rw [List.getD_eq_default _ _ (by omega)] at h
        simp at h
    · simp only [List.mem_singleton] at h
      omega

theorem plantFrom_planned_pos (cols : List Nat) :
    ∀ (vs : List Int) (g : Game) (i : Nat),
    (∀ l ∈ g.plannedCubes, ∀ w ∈ l, 1 ≤ w) → (∀ v ∈ vs, 1 ≤ v) →
    ∀ l ∈ (plantFrom g cols i vs).plannedCubes, ∀ w ∈ l, 1 ≤ w := by
  intro vs
  induction vs with
  | nil => intro g i hg _; exact hg
  | cons v vs ih =>
    intro g i hg hvs
    rw [plantFrom]
    exact ih _ (i + 1)
      (plantOne_planned_pos g _ v hg (hvs v (by simp)))
      (fun w hw => hvs w (by simp [hw]))

/-- The planned-cube positivity invariant that C9 assumes is maintained by
target generation: every value the fallback plants is at least 1. -/
theorem generateTarget_planned_pos (g : Game) (rs : RSrc)
    (hg : ∀ l ∈ g.plannedCubes, ∀ w ∈ l, 1 ≤ w) :
    ∀ l ∈ (generateTarget g rs).2.1.plannedCubes, ∀ w ∈ l, 1 ≤ w := by
  have hfb : ∀ (cfg : LevelCfg) (rsf : RSrc), 1 ≤ cfg.maxNumber →
      ∀ l ∈ (_generateFallbackTarget cfg g rsf).2.1.plannedCubes, ∀ w ∈ l, 1 ≤ w := by
    intro cfg rsf hmax
    apply plantFrom_planned_pos _ _ g 0 hg
    intro v hv
    exact (drawValues_mem_bounds cfg.maxNumber hmax _ rsf.tail v hv).1
  have hmax : 1 ≤ (getLevelConfig g.level).maxNumber := by
    have := getLevelConfig_maxNumber g.level
    omega
  rw [generateTarget]
  simp only []
  by_cases h1 : (fapsEntries (_getAllCubeValues g ++ _getUpcomingCubeValues g)
      GAME_CONST.MAX_CUBES_FOR_SUM).length ≠ 0
  · rw [if_pos h1]
    by_cases h2 : (validSumsOf (_getAllCubeValues g ++ _getUpcomingCubeValues g)
        (getLevelConfig g.level)).length ≠ 0
    · rw [if_pos h2]
      exact hg
    · rw [if_neg h2]
      exact hfb _ rs hmax
  · rw [if_neg h1]
    exact hfb _ rs hmax

/-- Popping a planned cube also preserves the positivity invariant. -/
theorem generateNextCubeValue_planned_pos (g : Game) (col : Nat) (rs : RSrc)
    (hg : ∀ l ∈ g.plannedCubes, ∀ w ∈ l, 1 ≤ w) :
    ∀ l ∈ (generateNextCubeValue g col rs).2.1.plannedCubes, ∀ w ∈ l, 1 ≤ w := by
  rw [generateNextCubeValue]
  cases hp : g.plannedCubes.getD col [] with
  | nil => exact hg
  | cons v rest =>
    simp only []
    intro l hl w hw
    rcases List.mem_or_eq_of_mem_set hl with h | h
    · exact hg l h w hw
    · subst h
      by_cases hc : col < g.plannedCubes.length
      · exact hg _ (getD_mem_of_lt hc []) w (by rw [hp]; exact List.mem_cons_of_mem v hw)
      · rw [List.getD_eq_default _ _ (by omega)] at hp
        cases hp

theorem C1_fallback_target_witness :
    (1 ≤ (getLevelConfig 1).maxNumber ∧ emptyGame.plannedCubes.length = 4) ∧
    (_generateFallbackTarget (getLevelConfig 1) emptyGame [0, 3, 5, 0, 2, 0]).1
      = clampInt (fallbackValues (getLevelConfig 1) [0, 3, 5, 0, 2, 0]).sum
          GAME_CONST.MIN_TARGET (getLevelConfig 1).maxTarget :=
  ⟨⟨by decide, by decide⟩,
    (C1_fallback_target (getLevelConfig 1) emptyGame [0, 3, 5, 0, 2, 0]
      (by decide) (by decide)).2.2.2.2.1⟩

end SumSum
